import Mathlib

/-!
# The `serializer` extension module (`src/modules/serializer/python/serializer.c`)

A shallow embedding of the C extension module: the `serialize` driver loop, the
value dispatcher `_serialize_value`, the timestamp formatter `_isoformat` and the entry
point `isoformat`.

Modelling conventions.

* A `PyObject *` that may be `NULL` is an `Option`; `none` is `NULL`.
* The interpreter's pending-exception indicator (`PyErr_Occurred`) is the field
  `Interp.err`; `PyErr_Clear` resets it.
* Every call that reaches a collaborator (attribute reads on a descriptor or on
  the source object, the two descriptor capabilities, the formatter) is recorded
  in `Interp.trace`, tagged with the position of the field in the sequence.
* Where the C code dereferences `NULL` or reads an object through the layout of
  another type, the run ends in `undefined`.
* Field names are texts; text never holds a lone surrogate (`Char` excludes it).
* `py_defines.h` is not among the sources: its `PyString_AS_STRING` is taken to be the
  accessor of the buffer of a bytes object, which is what the module needs of it.
* A field sequence is a list, so `PyObject_GetIter` and `PyIter_Next` cannot fail.
-/

namespace Serializer

/-! ## Data model -/

/-- The calendar fields read by the `PyDateTime_*` accessor macros. -/
structure DateTime where
  year : Nat
  month : Nat
  day : Nat
  hour : Nat
  minute : Nat
  second : Nat
  microsecond : Nat
deriving DecidableEq, Repr

/-- Python values that cross the module boundary. -/
inductive PyVal where
  | none
  | bool (b : Bool)
  | int (n : Int)
  | str (s : String)
  | bytes (b : List Nat)
  | date (year month day : Nat)
  | datetime (d : DateTime)
  | dict (items : List (String × PyVal))

/-- A raised exception: its type name and its message. -/
structure PyErr where
  exc_type : String
  message : String
deriving DecidableEq, Repr

/-- The source object: attribute lookup by name, `none` when the attribute is missing. -/
abbrev PyObj := String → Option PyVal

/-- A field descriptor: its optional attributes, the name of its class and its
two capabilities. -/
structure Field where
  field_name : Option String
  type_name : Option PyVal
  class_name : String
  write_only : Option PyVal
  as_dict : Option PyVal
  get_attribute : PyObj → Except PyErr PyVal
  to_representation : PyVal → Except PyErr PyVal

/-- An insertion-ordered mapping with text keys. -/
abbrev Dict := List (String × PyVal)

/-- Collaborator calls, tagged with the position of the field in the sequence. -/
inductive Event where
  | fieldAttr (field : Nat) (attr : String)
  | objAttr (field : Nat) (name : String)
  | getAttribute (field : Nat)
  | toRepresentation (field : Nat) (arg : PyVal)
  | format (field : Nat)

/-- Interpreter state threaded through the C code. -/
structure Interp where
  err : Option PyErr
  trace : List Event

/-- Result of a piece of C code: it carries on with a value and a state, or it
has reached undefined behaviour. -/
inductive Step (α : Type) where
  | next (a : α) (st : Interp)
  | undefined (trace : List Event)

/-- What a call of `serialize` gives its caller. -/
inductive Outcome where
  | ok (mapping : Dict)
  | raised (e : PyErr)
  | undefined

/-- A `char *`: `NULL`, the buffer of a bytes object, or a pointer into an
object that is not a bytes object. -/
inductive CharPtr where
  | null
  | buffer (bytes : List Nat)
  | foreign

/-! ## Runtime primitives -/

/-- UTF-8 encoding of one code point. -/
def utf8EncodeChar (c : Char) : List Nat :=
  let n := c.toNat
  if n < 0x80 then [n]
  else if n < 0x800 then [0xC0 + n / 0x40, 0x80 + n % 0x40]
  else if n < 0x10000 then [0xE0 + n / 0x1000, 0x80 + n / 0x40 % 0x40, 0x80 + n % 0x40]
  else [0xF0 + n / 0x40000, 0x80 + n / 0x1000 % 0x40, 0x80 + n / 0x40 % 0x40, 0x80 + n % 0x40]

/-- `PyUnicode_AsUTF8String`: the bytes of a text. -/
def PyUnicode_AsUTF8String (s : String) : List Nat :=
  s.toList.flatMap utf8EncodeChar

/-- The C string a buffer holds: its bytes before the first NUL. -/
def cstr (buf : List Nat) : List Nat :=
  buf.takeWhile (fun b => b != 0)

/-- `strcmp(a, b) == 0` on two buffers. -/
def strcmp_eq (a b : List Nat) : Bool :=
  cstr a == cstr b

/-- `const char *datetime_type = "DateTimeField";` -/
def datetime_type : List Nat := PyUnicode_AsUTF8String "DateTimeField"

/-- The exception a failed attribute lookup sets. -/
def attributeError (attr : String) : PyErr := ⟨"AttributeError", attr⟩

/-- `PyErr_Format(PyExc_TypeError, "Invalid fields definition, missing field")`. -/
def missingFieldError : PyErr := ⟨"TypeError", "Invalid fields definition, missing field"⟩

/-- `PyErr_Clear`. -/
def PyErr_Clear (st : Interp) : Interp := { st with err := Option.none }

/-- Append one event to the trace. -/
def Interp.log (st : Interp) (e : Event) : Interp := { st with trace := st.trace ++ [e] }

/-- `PyObject_GetAttrString(field, attr)` on the descriptor at position `i`:
a missing attribute gives `NULL` and sets `AttributeError`. -/
def PyObject_GetAttrString {α : Type} (i : Nat) (attr : String) (v : Option α)
    (st : Interp) : Option α × Interp :=
  match v with
  | some x => (some x, st.log (.fieldAttr i attr))
  | Option.none => (Option.none, { err := some (attributeError attr),
                                   trace := st.trace ++ [.fieldAttr i attr] })

/-- `PyDict_SetItem`: an existing key keeps its position and takes the new value,
a new key goes last. -/
def PyDict_SetItem : Dict → String → PyVal → Dict
  | [], k, v => [(k, v)]
  | (k', v') :: rest, k, v =>
    if k' = k then (k, v) :: rest else (k', v') :: PyDict_SetItem rest k v

/-! ## `_isoformat` -/

/-- `%d` of a non-negative int. -/
def fmt_d (n : Nat) : List Char := Nat.toDigits 10 n

/-- `%0wd` of a non-negative int: at least `w` characters, padded with `'0'` on the left. -/
def fmt_0d (w n : Nat) : List Char :=
  List.replicate (w - (Nat.toDigits 10 n).length) '0' ++ Nat.toDigits 10 n

/-- `PyUnicode_FromFormat("%d-%02d-%02dT%02d:%02d:%02d.%06dZ", ...)` on the fields of a
datetime value. -/
def _isoformat (value : DateTime) : String :=
  String.mk (fmt_d value.year ++ '-' :: fmt_0d 2 value.month ++ '-' :: fmt_0d 2 value.day
    ++ 'T' :: fmt_0d 2 value.hour ++ ':' :: fmt_0d 2 value.minute ++ ':' :: fmt_0d 2 value.second
    ++ '.' :: fmt_0d 6 value.microsecond ++ ['Z'])

/-! ## `_serialize_value` -/

/-- The value dispatcher (lines 85-125). `none` as result is a `NULL` return.
Defined behaviour ends where `strcmp` reads through a pointer into an object that is not a
bytes object (line 89), where `PyObject_GetAttr` is handed a `NULL` name (line 90), where
the accessor macros of `_isoformat` read an object that is not a datetime through the
datetime layout (line 97), and where `get_attribute` gives `NULL`, because it raised or
because it was called with an exception pending: line 119 then fails to build the
arguments of `to_representation`, which is not called, and line 120 hands the `NULL` to
`Py_DECREF`. -/
def _serialize_value (obj : PyObj) (i : Nat) (field_name : Option String) (field : Field)
    (type_name : CharPtr) (st : Interp) : Step (Option PyVal) :=
  let fast : Option Bool :=
    match type_name with
    | .null => some false
    | .buffer b => some (strcmp_eq b datetime_type)
    | .foreign => Option.none
  match fast with
  | Option.none => .undefined st.trace
  | some true =>
    match field_name with
    | Option.none => .undefined st.trace
    | some name =>
      let st := st.log (.objAttr i name)
      match obj name with
      | Option.none => .next Option.none { st with err := some missingFieldError }
      | some .none => .next (some .none) st
      | some (.datetime d) =>
        let st := st.log (.format i)
        let value := PyVal.str (_isoformat d)
        match PyObject_GetAttrString i "as_dict" field.as_dict st with
        | (Option.none, st) => .next (some value) (PyErr_Clear st)
        | (some (.bool false), st) => .next (some value) st
        | (some as_dict, st) =>
          .next (some (.dict (PyDict_SetItem (PyDict_SetItem [] "type" as_dict) "value" value))) st
      | some _ => .undefined (st.trace ++ [.format i])
  | some false =>
    let st1 := st.log (.getAttribute i)
    match st.err, field.get_attribute obj with
    | Option.none, .ok .none => .next (some .none) st1
    | Option.none, .ok value =>
      let st2 := st1.log (.toRepresentation i value)
      match field.to_representation value with
      | .ok ret => .next (some ret) st2
      | .error e => .next Option.none { st2 with err := some e }
    | _, _ => .undefined st1.trace

/-! ## `serialize` -/

/-- The `char *` taken from the resolved type name (lines 46-55). -/
def type_name_c (type_name : PyVal) : CharPtr :=
  match type_name with
  | .str s => .buffer (PyUnicode_AsUTF8String s)
  | .bytes b => .buffer b
  | _ => .foreign

/-- The test `is_write_only == NULL || is_write_only == Py_False` (line 63). -/
def dispatched (is_write_only : Option PyVal) : Bool :=
  match is_write_only with
  | Option.none => true
  | some (.bool false) => true
  | some _ => false

/-- One pass of the body of the main loop (lines 34-74) on the field at position `i`.
A class always has a name, so the fallback of lines 38-44 gives a text. Line 66 with a
`NULL` field name ends defined behaviour. -/
def serialize_field (obj : PyObj) (i : Nat) (field : Field) (st : Interp) (dict : Dict) :
    Step Dict :=
  match PyObject_GetAttrString i "field_name" field.field_name st with
  | (field_name, st) =>
  match PyObject_GetAttrString i "type_name" field.type_name st with
  | (type_name, st) =>
  let resolved : PyVal × Interp :=
    match type_name with
    | Option.none =>
      (.str field.class_name,
        ((PyErr_Clear st).log (.fieldAttr i "__class__")).log (.fieldAttr i "__name__"))
    | some t => (t, st)
  let tag := type_name_c resolved.1
  match PyObject_GetAttrString i "write_only" field.write_only resolved.2 with
  | (is_write_only, st) =>
  let st := if is_write_only.isNone then PyErr_Clear st else st
  if dispatched is_write_only then
    match _serialize_value obj i field_name field tag st with
    | .undefined tr => .undefined tr
    | .next Option.none st => .next dict st
    | .next (some value) st =>
      match field_name with
      | Option.none => .undefined st.trace
      | some k => .next (PyDict_SetItem dict k value) st
  else .next dict st

/-- The main loop (line 33): it stops at a pending exception or at the end of the
sequence. -/
def serialize_loop (obj : PyObj) : Nat → List Field → Interp → Dict → Step Dict
  | _, [], st, dict => .next dict st
  | i, field :: rest, st, dict =>
    match st.err with
    | some _ => .next dict st
    | Option.none =>
      match serialize_field obj i field st dict with
      | .undefined tr => .undefined tr
      | .next dict1 st1 => serialize_loop obj (i + 1) rest st1 dict1

/-- The entry point `serialize(obj, fields)`: the loop on an empty mapping, then
`NULL` when an exception is pending and the mapping otherwise (lines 77-82). -/
def serialize (obj : PyObj) (fields : List Field) : Outcome × List Event :=
  match serialize_loop obj 0 fields ⟨Option.none, []⟩ [] with
  | .undefined tr => (.undefined, tr)
  | .next dict st =>
    match st.err with
    | some e => (.raised e, st.trace)
    | Option.none => (.ok dict, st.trace)

/-! ## `isoformat` -/

/-- What a call of `isoformat` gives its caller. -/
inductive TextOutcome where
  | ok (text : String)
  | raised (e : PyErr)
  | undefined

/-- The entry point `isoformat(value)` (lines 127-134): `PyArg_ParseTuple(args, "O", &value)`
takes exactly one argument of any type, then `_isoformat` reads it with the accessor macros,
which do not check the type of the object. -/
def isoformat (args : List PyVal) : TextOutcome :=
  match args with
  | [value] =>
    match value with
    | .datetime d => .ok (_isoformat d)
    | _ => .undefined
  | _ => .raised ⟨"TypeError", "function takes exactly 1 argument"⟩

/-! ## Vocabulary of the specification -/

/-- Python truth value of a value (`bool(v)`). -/
def truthy : PyVal → Bool
  | .none => false
  | .bool b => b
  | .int n => n != 0
  | .str s => s != ""
  | .bytes b => !b.isEmpty
  | .date _ _ _ => true
  | .datetime _ => true
  | .dict items => !items.isEmpty

/-- An attribute that is present with a truthy value. -/
def present_truthy (v : Option PyVal) : Bool :=
  match v with
  | some w => truthy w
  | Option.none => false

/-- The type name the classifier resolves: the explicit attribute, else the class name. -/
def resolved_type_name (f : Field) : PyVal :=
  match f.type_name with
  | some t => t
  | Option.none => .str f.class_name

/-- The type tag handed to the dispatcher for a descriptor. -/
def field_tag (f : Field) : CharPtr := type_name_c (resolved_type_name f)

/-- The tag compares equal to the timestamp marker. -/
def is_timestamp (tag : CharPtr) : Bool :=
  match tag with
  | .buffer b => strcmp_eq b datetime_type
  | _ => false

/-- The tag is a C string that differs from the timestamp marker, or no tag at all. -/
def is_generic (tag : CharPtr) : Bool :=
  match tag with
  | .buffer b => !strcmp_eq b datetime_type
  | .null => true
  | .foreign => false

/-- The attribute reads the loop body makes on the descriptor at position `i`
before the write-only test. -/
def attr_reads (i : Nat) (f : Field) : List Event :=
  [.fieldAttr i "field_name", .fieldAttr i "type_name"]
    ++ (if f.type_name.isNone then [.fieldAttr i "__class__", .fieldAttr i "__name__"] else [])
    ++ [.fieldAttr i "write_only"]

/-- The exception still pending after those reads, when none was pending before. -/
def attr_err (f : Field) : Option PyErr :=
  if f.field_name.isNone && f.type_name.isSome && f.write_only.isSome
  then some (attributeError "field_name") else Option.none

/-- The position of the field an event belongs to. -/
def Event.field : Event → Nat
  | .fieldAttr i _ => i
  | .objAttr i _ => i
  | .getAttribute i => i
  | .toRepresentation i _ => i
  | .format i => i

/-- Events made by the value dispatcher. -/
def Event.isDispatch : Event → Bool
  | .fieldAttr _ attr => attr == "as_dict"
  | _ => true

/-- The trace at the end of a piece of C code. -/
def Step.trace {α : Type} : Step α → List Event
  | .next _ st => st.trace
  | .undefined tr => tr

/-- What a piece of C code computes, trace aside: its value and the pending
exception, or nothing when it left defined behaviour. -/
def Step.forget {α : Type} : Step α → Option (α × Option PyErr)
  | .next a st => some (a, st.err)
  | .undefined _ => Option.none

/-- The keys of a mapping in insertion order. -/
def keys (d : Dict) : List String := d.map Prod.fst

/-- Add a key the way a mapping does: a key already present stays where it is. -/
def add_key (ks : List String) (k : String) : List String :=
  if k ∈ ks then ks else ks ++ [k]

/-- A list of names with repeats dropped, each name at its first occurrence. -/
def first_occurrences (names : List String) : List String :=
  names.foldl add_key []

/-- The entry of a mapping under a key. -/
def Dict.get (d : Dict) (k : String) : Option PyVal :=
  match d with
  | [] => Option.none
  | (k', v) :: rest => if k' = k then some v else Dict.get rest k

/-- The names of the fields the write-only test of line 63 lets through, in input order. -/
def dispatched_names (fields : List Field) : List String :=
  (fields.filter (fun f => dispatched f.write_only)).filterMap (fun f => f.field_name)

/-- The names of the fields whose write-only attribute is not truthy, in input order. -/
def not_write_only_names (fields : List Field) : List String :=
  (fields.filter (fun f => !present_truthy f.write_only)).filterMap (fun f => f.field_name)

/-- The fields whose write-only attribute is not truthy. -/
def without_write_only (fields : List Field) : List Field :=
  fields.filter (fun f => !present_truthy f.write_only)

/-- The keys of the mapping a call returned, when it returned one. -/
def result_keys (r : Outcome × List Event) : Option (List String) :=
  match r.1 with
  | .ok m => some (keys m)
  | _ => Option.none

/-- The entry under a key of the mapping a call returned, when it returned one. -/
def result_get (r : Outcome × List Event) (k : String) : Option (Option PyVal) :=
  match r.1 with
  | .ok m => some (Dict.get m k)
  | _ => Option.none

/-- The value a run of the dispatcher returned: `none` when it left defined behaviour,
`some none` for a `NULL` return. -/
def Step.value {α : Type} : Step α → Option α
  | .next a _ => some a
  | .undefined _ => Option.none

/-- The `write_only` attribute is the `True` singleton. -/
def write_only_true (w : Option PyVal) : Bool :=
  match w with
  | some (.bool true) => true
  | _ => false

/-- The value the dispatcher yields for a field, when it yields one and leaves no
exception pending. -/
def dispatch_value (obj : PyObj) (f : Field) : Option PyVal :=
  match Step.forget (_serialize_value obj 0 f.field_name f (field_tag f) ⟨Option.none, []⟩) with
  | some (some v, Option.none) => some v
  | _ => Option.none

/-- The entry a field contributes: its name with the dispatcher's value, when the
write-only test lets it through. -/
def field_entry_of (obj : PyObj) (f : Field) : Option (String × PyVal) :=
  if dispatched f.write_only then
    match f.field_name, dispatch_value obj f with
    | some n, some v => some (n, v)
    | _, _ => Option.none
  else Option.none

/-- The entries of the fields let through, in input order. -/
def expected_entries (obj : PyObj) (fields : List Field) : Dict :=
  fields.filterMap (field_entry_of obj)

/-- The value of a decimal digit character. -/
def digit_value (c : Char) : Nat := c.toNat - 48

/-- The number a run of decimal digits writes. -/
def digits_value (l : List Char) : Nat :=
  l.foldl (fun acc c => acc * 10 + digit_value c) 0

/-- Read the digits at the head of a text: their number and the rest of the text. -/
def read_number (l : List Char) : Nat × List Char :=
  (digits_value (l.takeWhile Char.isDigit), l.dropWhile Char.isDigit)

/-- Read one given character. -/
def expect_char (c : Char) (l : List Char) : Option (List Char) :=
  match l with
  | x :: rest => if x = c then some rest else Option.none
  | [] => Option.none

/-- Split a text of the form `Y-M-DTh:m:s.uZ` at its separators and read the seven
numbers. -/
def parse_isoformat (s : String) : Option DateTime :=
  let y := read_number s.data
  (expect_char '-' y.2).bind fun r =>
  let mo := read_number r
  (expect_char '-' mo.2).bind fun r =>
  let d := read_number r
  (expect_char 'T' d.2).bind fun r =>
  let h := read_number r
  (expect_char ':' h.2).bind fun r =>
  let mi := read_number r
  (expect_char ':' mi.2).bind fun r =>
  let sec := read_number r
  (expect_char '.' sec.2).bind fun r =>
  let us := read_number r
  (expect_char 'Z' us.2).bind fun r =>
  if r = [] then some ⟨y.1, mo.1, d.1, h.1, mi.1, sec.1, us.1⟩ else Option.none

/-- A calendar-time value with every field in range. -/
def DateTime.valid (d : DateTime) : Prop :=
  1 ≤ d.year ∧ d.year ≤ 9999 ∧ 1 ≤ d.month ∧ d.month ≤ 12 ∧ 1 ≤ d.day ∧ d.day ≤ 31 ∧
  d.hour ≤ 23 ∧ d.minute ≤ 59 ∧ d.second ≤ 59 ∧ d.microsecond ≤ 999999

instance (d : DateTime) : Decidable d.valid := by
  unfold DateTime.valid
  infer_instance

/-! ## Sample inputs -/

/-- A descriptor with the given attributes whose `get_attribute` reads the attribute it
names from the object and whose `to_representation` returns its argument. -/
def plain_field (name : String) (type_name write_only as_dict : Option PyVal) : Field :=
  { field_name := some name
    type_name := type_name
    class_name := "Field"
    write_only := write_only
    as_dict := as_dict
    get_attribute := fun o =>
      match o name with
      | some v => .ok v
      | Option.none => .error (attributeError name)
    to_representation := fun v => .ok v }

/-- An object with a timestamp `created`, a text `title` and a null `deleted`. -/
def sample_obj : PyObj := fun n =>
  if n = "created" then some (.datetime ⟨2024, 1, 5, 8, 3, 2, 500000⟩)
  else if n = "title" then some (.str "hello")
  else if n = "deleted" then some .none
  else Option.none

def created_field : Field := plain_field "created" (some (.str "DateTimeField")) Option.none Option.none

def created_instant : Field :=
  plain_field "created" (some (.str "DateTimeField")) Option.none (some (.str "instant"))

def created_as_dict_none : Field :=
  plain_field "created" (some (.str "DateTimeField")) Option.none (some .none)

def created_as_dict_false : Field :=
  plain_field "created" (some (.str "DateTimeField")) Option.none (some (.bool false))

def deleted_field : Field :=
  plain_field "deleted" (some (.str "DateTimeField")) Option.none (some (.str "instant"))

def missing_field : Field :=
  plain_field "missing" (some (.str "DateTimeField")) Option.none Option.none

def deleted_plain : Field :=
  plain_field "deleted" (some (.str "CharField")) Option.none Option.none

def secret_field : Field :=
  plain_field "secret" (some (.str "CharField")) (some (.bool true)) Option.none

def title_field : Field := plain_field "title" (some (.str "CharField")) Option.none Option.none

def title_write_only_zero : Field :=
  plain_field "title" (some (.str "CharField")) (some (.int 0)) Option.none

def title_write_only_none : Field :=
  plain_field "title" (some (.str "CharField")) (some .none) Option.none

/-- A valid calendar-time value in the year 999. -/
def year_999 : DateTime := ⟨999, 12, 31, 23, 59, 59, 999999⟩

/-- A descriptor without `field_name`, whose `get_attribute` returns a text. -/
def nameless_field (type_name write_only : Option PyVal) : Field :=
  { field_name := Option.none
    type_name := type_name
    class_name := "Field"
    write_only := write_only
    as_dict := Option.none
    get_attribute := fun _ => .ok (.str "x")
    to_representation := fun v => .ok v }

/-- The failure the failing capabilities of the samples raise. -/
def sample_error : PyErr := ⟨"ValueError", "boom"⟩

/-- The field `title` with a `get_attribute` that raises. -/
def title_failing_get : Field :=
  { title_field with get_attribute := fun _ => .error sample_error }

/-- The field `title` with a `to_representation` that raises. -/
def title_failing_repr : Field :=
  { title_field with to_representation := fun _ => .error sample_error }

/-- The field `created` with capabilities that raise. -/
def created_failing_caps : Field :=
  { created_field with
    get_attribute := fun _ => .error sample_error
    to_representation := fun _ => .error sample_error }

/-- The field `title` whose explicit type name is a number. -/
def title_int_type : Field :=
  plain_field "title" (some (.int 42)) Option.none Option.none

/-- The field `title`, whose value is a text, tagged as a timestamp. -/
def title_as_timestamp : Field :=
  plain_field "title" (some (.str "DateTimeField")) Option.none Option.none

/-- The timestamp field `created` with `write_only = None`. -/
def created_write_only_none : Field :=
  plain_field "created" (some (.str "DateTimeField")) (some .none) Option.none

/-- The timestamp field `deleted`, whose value is `None`, with `write_only = 0`. -/
def deleted_write_only_zero : Field :=
  plain_field "deleted" (some (.str "DateTimeField")) (some (.int 0)) Option.none

/-- The generic field `title` with `write_only = ""`. -/
def title_write_only_empty : Field :=
  plain_field "title" (some (.str "CharField")) (some (.str "")) Option.none

/-- With no exception pending, the loop body reads the attributes, then either
hands the field to the dispatcher or leaves the mapping alone. -/
theorem serialize_field_eq (obj : PyObj) (i : Nat) (f : Field) (st : Interp) (dict : Dict)
    (h : st.err = Option.none) :
    serialize_field obj i f st dict =
      if dispatched f.write_only then
        match _serialize_value obj i f.field_name f (field_tag f)
            ⟨attr_err f, st.trace ++ attr_reads i f⟩ with
        | .undefined tr => .undefined tr
        | .next Option.none st1 => .next dict st1
        | .next (some value) st1 =>
          match f.field_name with
          | Option.none => .undefined st1.trace
          | some k => .next (PyDict_SetItem dict k value) st1
      else .next dict ⟨attr_err f, st.trace ++ attr_reads i f⟩ := by
  obtain ⟨e, tr⟩ := st
  simp only at h
  subst h
  rcases hn : f.field_name with _ | n <;> rcases ht : f.type_name with _ | t <;>
    rcases hw : f.write_only with _ | w <;>
    simp [serialize_field, PyObject_GetAttrString, PyErr_Clear, Interp.log, field_tag,
      resolved_type_name, attr_err, attr_reads, dispatched, hn, ht, hw]

/-! ## The dispatcher, path by path -/

theorem fast_missing (obj : PyObj) (i : Nat) (n : String) (f : Field) (tag : CharPtr)
    (st : Interp) (htag : is_timestamp tag = true) (hv : obj n = Option.none) :
    _serialize_value obj i (some n) f tag st =
      .next Option.none ⟨some missingFieldError, st.trace ++ [.objAttr i n]⟩ := by
  rcases tag with _ | b | _ <;> simp [is_timestamp] at htag
  simp [_serialize_value, htag, hv, Interp.log]

theorem fast_none (obj : PyObj) (i : Nat) (n : String) (f : Field) (tag : CharPtr)
    (st : Interp) (htag : is_timestamp tag = true) (hv : obj n = some .none) :
    _serialize_value obj i (some n) f tag st =
      .next (some .none) ⟨st.err, st.trace ++ [.objAttr i n]⟩ := by
  rcases tag with _ | b | _ <;> simp [is_timestamp] at htag
  simp [_serialize_value, htag, hv, Interp.log]

theorem fast_bare_absent (obj : PyObj) (i : Nat) (n : String) (f : Field) (tag : CharPtr)
    (st : Interp) (d : DateTime) (htag : is_timestamp tag = true)
    (hv : obj n = some (.datetime d)) (ha : f.as_dict = Option.none) :
    _serialize_value obj i (some n) f tag st =
      .next (some (.str (_isoformat d)))
        ⟨Option.none, st.trace ++ [.objAttr i n, .format i, .fieldAttr i "as_dict"]⟩ := by
  rcases tag with _ | b | _ <;> simp [is_timestamp] at htag
  simp [_serialize_value, htag, hv, ha, Interp.log, PyObject_GetAttrString, PyErr_Clear]

theorem fast_bare_false (obj : PyObj) (i : Nat) (n : String) (f : Field) (tag : CharPtr)
    (st : Interp) (d : DateTime) (htag : is_timestamp tag = true)
    (hv : obj n = some (.datetime d)) (ha : f.as_dict = some (.bool false)) :
    _serialize_value obj i (some n) f tag st =
      .next (some (.str (_isoformat d)))
        ⟨st.err, st.trace ++ [.objAttr i n, .format i, .fieldAttr i "as_dict"]⟩ := by
  rcases tag with _ | b | _ <;> simp [is_timestamp] at htag
  simp [_serialize_value, htag, hv, ha, Interp.log, PyObject_GetAttrString]

theorem fast_wrapped (obj : PyObj) (i : Nat) (n : String) (f : Field) (tag : CharPtr)
    (st : Interp) (d : DateTime) (a : PyVal) (htag : is_timestamp tag = true)
    (hv : obj n = some (.datetime d)) (ha : f.as_dict = some a) (hne : a ≠ .bool false) :
    _serialize_value obj i (some n) f tag st =
      .next (some (.dict [("type", a), ("value", .str (_isoformat d))]))
        ⟨st.err, st.trace ++ [.objAttr i n, .format i, .fieldAttr i "as_dict"]⟩ := by
  rcases tag with _ | b | _ <;> simp [is_timestamp] at htag
  rcases a with _ | b | _ | _ | _ | _ | _ | _
  case bool => cases b <;> simp_all [_serialize_value, Interp.log, PyObject_GetAttrString,
    PyDict_SetItem]
  all_goals simp [_serialize_value, htag, hv, ha, Interp.log, PyObject_GetAttrString,
    PyDict_SetItem]

theorem generic_none (obj : PyObj) (i : Nat) (fn : Option String) (f : Field) (tag : CharPtr)
    (st : Interp) (htag : is_generic tag = true) (hst : st.err = Option.none)
    (hg : f.get_attribute obj = .ok .none) :
    _serialize_value obj i fn f tag st =
      .next (some .none) ⟨Option.none, st.trace ++ [.getAttribute i]⟩ := by
  rcases tag with _ | b | _ <;> simp [is_generic] at htag <;>
    simp [_serialize_value, htag, hg, hst, Interp.log]

theorem generic_value (obj : PyObj) (i : Nat) (fn : Option String) (f : Field) (tag : CharPtr)
    (st : Interp) (r v : PyVal) (htag : is_generic tag = true) (hst : st.err = Option.none)
    (hg : f.get_attribute obj = .ok r) (hr : r ≠ .none) (ht : f.to_representation r = .ok v) :
    _serialize_value obj i fn f tag st =
      .next (some v) ⟨Option.none, st.trace ++ [.getAttribute i, .toRepresentation i r]⟩ := by
  rcases tag with _ | b | _ <;> simp [is_generic] at htag <;>
    rcases r with _ | _ | _ | _ | _ | _ | _ | _ <;>
    first
      | exact absurd rfl hr
      | simp [_serialize_value, htag, hg, ht, hst, Interp.log]

/-- Every event the dispatcher adds belongs to the field it was called for. -/
theorem serialize_value_trace (obj : PyObj) (i : Nat) (fn : Option String) (f : Field)
    (tag : CharPtr) (st : Interp) :
    ∀ e ∈ (_serialize_value obj i fn f tag st).trace,
      e ∈ st.trace ∨ (e.field = i ∧ e.isDispatch = true) := by
  rcases ha : f.as_dict with _ | a
  all_goals simp only [_serialize_value, PyObject_GetAttrString, ha]
  all_goals repeat' split
  all_goals simp_all [Step.trace, Interp.log, PyErr_Clear]
  all_goals
    intro e he
    aesop

/-- The value and the pending exception the dispatcher ends with do not depend on
the position of the field or on the trace so far. -/
theorem serialize_value_forget (obj : PyObj) (i j : Nat) (fn : Option String) (f : Field)
    (tag : CharPtr) (st st' : Interp) (h : st.err = st'.err) :
    (_serialize_value obj i fn f tag st).forget =
      (_serialize_value obj j fn f tag st').forget := by
  obtain ⟨e, tr⟩ := st
  obtain ⟨e', tr'⟩ := st'
  simp only at h
  subst h
  rcases ha : f.as_dict with _ | (_ | (_ | _) | _ | _ | _ | _ | _ | _)
  all_goals simp only [_serialize_value, PyObject_GetAttrString, ha]
  all_goals repeat' split
  all_goals simp_all [Step.forget, Interp.log, PyErr_Clear]

/-- A `NULL` return of the dispatcher comes with an exception set. -/
theorem serialize_value_null (obj : PyObj) (i : Nat) (fn : Option String) (f : Field)
    (tag : CharPtr) (st st1 : Interp)
    (h : _serialize_value obj i fn f tag st = .next Option.none st1) :
    st1.err ≠ Option.none := by
  rcases ha : f.as_dict with _ | (_ | (_ | _) | _ | _ | _ | _ | _ | _)
  all_goals simp only [_serialize_value, PyObject_GetAttrString, ha] at h
  all_goals repeat' split at h
  all_goals simp_all [Interp.log, PyErr_Clear]
  all_goals
    subst h
    simp

/-! ## The mapping -/

theorem keys_setItem (d : Dict) (k : String) (v : PyVal) :
    keys (PyDict_SetItem d k v) = add_key (keys d) k := by
  induction d with
  | nil => simp [PyDict_SetItem, keys, add_key]
  | cons p rest ih =>
    obtain ⟨k', v'⟩ := p
    by_cases hk : k' = k
    · simp [PyDict_SetItem, keys, add_key, hk]
    · have hk' : ¬ k = k' := fun h => hk h.symm
      simp only [keys, add_key] at ih
      by_cases hm : k ∈ List.map Prod.fst rest
      · simp [PyDict_SetItem, keys, add_key, hk, hk', hm] at ih ⊢
        exact ih
      · simp [PyDict_SetItem, keys, add_key, hk, hk', hm] at ih ⊢
        exact ih

theorem get_setItem_same (d : Dict) (k : String) (v : PyVal) :
    Dict.get (PyDict_SetItem d k v) k = some v := by
  induction d with
  | nil => simp [PyDict_SetItem, Dict.get]
  | cons p rest ih =>
    obtain ⟨k', v'⟩ := p
    by_cases hk : k' = k <;> simp [PyDict_SetItem, Dict.get, hk, ih]

theorem get_setItem_other (d : Dict) (k k' : String) (v : PyVal) (h : k' ≠ k) :
    Dict.get (PyDict_SetItem d k v) k' = Dict.get d k' := by
  induction d with
  | nil => simp [PyDict_SetItem, Dict.get, h.symm]
  | cons p rest ih =>
    obtain ⟨k0, v0⟩ := p
    by_cases hk : k0 = k
    · subst hk
      simp [PyDict_SetItem, Dict.get, h.symm]
    · by_cases hk' : k0 = k'
      · subst hk'
        simp [PyDict_SetItem, Dict.get, hk]
      · simp [PyDict_SetItem, Dict.get, hk, hk', ih]

/-! ## The loop -/

theorem serialize_loop_err (obj : PyObj) (i : Nat) (fields : List Field) (st : Interp)
    (dict : Dict) (e : PyErr) (h : st.err = some e) :
    serialize_loop obj i fields st dict = .next dict st := by
  cases fields <;> simp [serialize_loop, h]

theorem serialize_loop_cons (obj : PyObj) (i : Nat) (f : Field) (rest : List Field)
    (st : Interp) (dict : Dict) (h : st.err = Option.none) :
    serialize_loop obj i (f :: rest) st dict =
      match serialize_field obj i f st dict with
      | .undefined tr => .undefined tr
      | .next dict1 st1 => serialize_loop obj (i + 1) rest st1 dict1 := by
  simp [serialize_loop, h]

/-- The loop on a concatenation is the loop on the first part followed by the loop on the
second, which starts where the first stopped. -/
theorem serialize_loop_append (obj : PyObj) (pre post : List Field) :
    ∀ (i : Nat) (st : Interp) (dict : Dict),
    serialize_loop obj i (pre ++ post) st dict =
      match serialize_loop obj i pre st dict with
      | .undefined tr => .undefined tr
      | .next d1 st1 => serialize_loop obj (i + pre.length) post st1 d1 := by
  induction pre with
  | nil => intro i st dict; simp [serialize_loop]
  | cons f rest ih =>
    intro i st dict
    rcases he : st.err with _ | e
    · rw [List.cons_append, serialize_loop_cons _ _ _ _ _ _ he,
        serialize_loop_cons _ _ _ _ _ _ he]
      rcases serialize_field obj i f st dict with ⟨d1, st1⟩ | tr
      · simp only [ih, List.length_cons]
        rw [show i + 1 + rest.length = i + (rest.length + 1) by omega]
      · rfl
    · rw [serialize_loop_err _ _ _ _ _ e he, serialize_loop_err _ _ _ _ _ e he]
      simp only
      rw [serialize_loop_err _ _ _ _ _ e he]

theorem serialize_eq_ok (obj : PyObj) (fields : List Field) (m : Dict) (tr : List Event) :
    serialize obj fields = (.ok m, tr) ↔
      serialize_loop obj 0 fields ⟨Option.none, []⟩ [] = .next m ⟨Option.none, tr⟩ := by
  unfold serialize
  rcases serialize_loop obj 0 fields ⟨Option.none, []⟩ [] with ⟨d, ⟨e, t⟩⟩ | t
  · cases e <;> simp
  · simp

theorem attr_reads_events (i : Nat) (f : Field) :
    ∀ e ∈ attr_reads i f, e.field = i ∧ e.isDispatch = false := by
  intro e he
  unfold attr_reads at he
  split at he
  · simp only [List.cons_append, List.nil_append, List.mem_cons, List.mem_singleton,
      List.not_mem_nil, or_false] at he
    rcases he with h | h | h | h | h <;> subst h <;> exact ⟨rfl, rfl⟩
  · simp only [List.cons_append, List.nil_append, List.append_nil, List.mem_cons,
      List.mem_singleton, List.not_mem_nil, or_false] at he
    rcases he with h | h | h <;> subst h <;> exact ⟨rfl, rfl⟩

/-- The mapping and the pending exception the loop body ends with do not depend on
the position of the field or on the trace so far. -/
theorem serialize_field_forget (obj : PyObj) (i j : Nat) (f : Field) (st st' : Interp)
    (dict : Dict) (h : st.err = Option.none) (h' : st'.err = Option.none) :
    (serialize_field obj i f st dict).forget = (serialize_field obj j f st' dict).forget := by
  rw [serialize_field_eq _ _ _ _ _ h, serialize_field_eq _ _ _ _ _ h']
  by_cases hd : dispatched f.write_only = true
  · simp only [hd, if_true]
    have hv := serialize_value_forget obj i j f.field_name f (field_tag f)
      ⟨attr_err f, st.trace ++ attr_reads i f⟩ ⟨attr_err f, st'.trace ++ attr_reads j f⟩ rfl
    rcases h1 : _serialize_value obj i f.field_name f (field_tag f)
        ⟨attr_err f, st.trace ++ attr_reads i f⟩ with ⟨v1, s1⟩ | t1 <;>
      rcases h2 : _serialize_value obj j f.field_name f (field_tag f)
        ⟨attr_err f, st'.trace ++ attr_reads j f⟩ with ⟨v2, s2⟩ | t2 <;>
      simp only [h1, h2, Step.forget] at hv
    · simp only [Option.some.injEq, Prod.mk.injEq] at hv
      obtain ⟨hv1, hv2⟩ := hv
      subst hv1
      rcases v1 with _ | v
      · simp [Step.forget, hv2]
      · rcases f.field_name with _ | k <;> simp [Step.forget, hv2]
    · simp at hv
    · simp at hv
    · rfl
  · simp [hd, Step.forget]

/-- Every event the loop body adds belongs to its field, and the dispatcher's events
appear only when the write-only test lets the field through. -/
theorem serialize_field_trace (obj : PyObj) (i : Nat) (f : Field) (st : Interp) (dict : Dict)
    (h : st.err = Option.none) :
    ∀ e ∈ (serialize_field obj i f st dict).trace,
      e ∈ st.trace ∨ (e.field = i ∧ (e.isDispatch = true → dispatched f.write_only = true)) := by
  intro e he
  rw [serialize_field_eq _ _ _ _ _ h] at he
  have reads : e ∈ st.trace ++ attr_reads i f →
      e ∈ st.trace ∨ (e.field = i ∧ (e.isDispatch = true → dispatched f.write_only = true)) := by
    intro hm
    rcases List.mem_append.1 hm with hm | hm
    · exact Or.inl hm
    · have := attr_reads_events i f e hm
      exact Or.inr ⟨this.1, fun hx => by simp [this.2] at hx⟩
  by_cases hd : dispatched f.write_only = true
  · simp only [hd, if_true] at he
    have hv := serialize_value_trace obj i f.field_name f (field_tag f)
      ⟨attr_err f, st.trace ++ attr_reads i f⟩ e
    have key : e ∈ (_serialize_value obj i f.field_name f (field_tag f)
        ⟨attr_err f, st.trace ++ attr_reads i f⟩).trace := by
      rcases h1 : _serialize_value obj i f.field_name f (field_tag f)
          ⟨attr_err f, st.trace ++ attr_reads i f⟩ with ⟨v1, s1⟩ | t1
      · rw [h1] at he
        rcases v1 with _ | v
        · simpa [Step.trace] using he
        · rcases hn : f.field_name with _ | k <;> simp only [hn] at he <;>
            simpa [Step.trace] using he
      · rw [h1] at he
        simpa [Step.trace] using he
    rcases hv key with hm | hm
    · exact reads hm
    · exact Or.inr ⟨hm.1, fun _ => hd⟩
  · simp only [hd] at he
    exact reads (by simpa [Step.trace] using he)

/-- A pass of the loop body that ends with no exception pending either skipped the field
or inserted the dispatcher's value under the field's name. -/
theorem serialize_field_success (obj : PyObj) (i : Nat) (f : Field) (st : Interp) (dict d1 : Dict)
    (st1 : Interp) (h : st.err = Option.none)
    (hs : serialize_field obj i f st dict = .next d1 st1) (h1 : st1.err = Option.none) :
    (dispatched f.write_only = false ∧ d1 = dict ∧ attr_err f = Option.none) ∨
    (dispatched f.write_only = true ∧ ∃ k v, f.field_name = some k ∧
      _serialize_value obj i (some k) f (field_tag f)
        ⟨Option.none, st.trace ++ attr_reads i f⟩ = .next (some v) st1 ∧
      d1 = PyDict_SetItem dict k v) := by
  rw [serialize_field_eq _ _ _ _ _ h] at hs
  by_cases hd : dispatched f.write_only = true
  · right
    refine ⟨hd, ?_⟩
    simp only [hd, if_true] at hs
    rcases hn : f.field_name with _ | k
    · rcases hv : _serialize_value obj i f.field_name f (field_tag f)
          ⟨attr_err f, st.trace ++ attr_reads i f⟩ with ⟨v, s⟩ | t
      · rw [hv] at hs
        rcases v with _ | v
        · simp only [Step.next.injEq] at hs
          have := serialize_value_null _ _ _ _ _ _ _ hv
          rw [hs.2] at this
          exact absurd h1 this
        · simp [hn] at hs
      · rw [hv] at hs
        simp at hs
    · have he : attr_err f = Option.none := by simp [attr_err, hn]
      rw [hn, he] at hs
      rcases hv : _serialize_value obj i (some k) f (field_tag f)
          ⟨Option.none, st.trace ++ attr_reads i f⟩ with ⟨v, s⟩ | t
      · rw [hv] at hs
        rcases v with _ | v
        · simp only [Step.next.injEq] at hs
          have := serialize_value_null _ _ _ _ _ _ _ hv
          rw [hs.2] at this
          exact absurd h1 this
        · simp only [Step.next.injEq] at hs
          exact ⟨k, v, rfl, by rw [← hs.2]; exact hv, hs.1.symm⟩
      · rw [hv] at hs
        simp at hs
  · left
    simp only [hd] at hs
    simp only [Bool.not_eq_true] at hd
    simp only [Bool.false_eq_true, if_false, Step.next.injEq] at hs
    refine ⟨hd, hs.1.symm, ?_⟩
    rw [← hs.2] at h1
    exact h1

/-- Every event of the loop belongs to a field of the sequence, and the dispatcher's
events belong to fields the write-only test lets through. -/
theorem serialize_loop_trace (obj : PyObj) (fields : List Field) :
    ∀ (i : Nat) (st : Interp) (dict : Dict),
    ∀ e ∈ (serialize_loop obj i fields st dict).trace,
      e ∈ st.trace ∨ (i ≤ e.field ∧ ∃ f, fields[e.field - i]? = some f ∧
        (e.isDispatch = true → dispatched f.write_only = true)) := by
  induction fields with
  | nil => intro i st dict e he; exact Or.inl (by simpa [serialize_loop, Step.trace] using he)
  | cons f rest ih =>
    intro i st dict e he
    rcases hst : st.err with _ | e0
    · rw [serialize_loop_cons _ _ _ _ _ _ hst] at he
      have hf := serialize_field_trace obj i f st dict hst e
      have here : e ∈ (serialize_field obj i f st dict).trace →
          e ∈ st.trace ∨ (i ≤ e.field ∧ ∃ g, (f :: rest)[e.field - i]? = some g ∧
            (e.isDispatch = true → dispatched g.write_only = true)) := by
        intro hm
        rcases hf hm with h | ⟨h1, h2⟩
        · exact Or.inl h
        · exact Or.inr ⟨by omega, f, by simp [h1], h2⟩
      rcases hr : serialize_field obj i f st dict with ⟨d1, s1⟩ | t
      · rw [hr] at he
        simp only at he
        rcases ih (i + 1) s1 d1 e he with h | ⟨h1, g, h2, h3⟩
        · exact here (by rw [hr]; exact h)
        · refine Or.inr ⟨by omega, g, ?_, h3⟩
          have : e.field - i = (e.field - (i + 1)) + 1 := by omega
          rw [this, List.getElem?_cons_succ]
          exact h2
      · rw [hr] at he
        exact here (by rw [hr]; exact he)
    · rw [serialize_loop_err _ _ _ _ _ e0 hst] at he
      exact Or.inl he

theorem truthy_not_dispatched (w : Option PyVal) (h : present_truthy w = true) :
    dispatched w = false := by
  rcases w with _ | (_ | (_ | _) | _ | _ | _ | _ | _ | _) <;>
    simp_all [present_truthy, truthy, dispatched]

theorem foldl_add_key_nodup (l : List String) :
    ∀ acc : List String, (acc ++ l).Nodup → l.foldl add_key acc = acc ++ l := by
  induction l with
  | nil => intro acc _; simp
  | cons k rest ih =>
    intro acc h
    have hk : k ∉ acc := by
      intro hm
      have := List.nodup_append.1 h
      exact this.2.2 hm (List.mem_cons_self _ _)
    have h' : (acc ++ [k] ++ rest).Nodup := by simpa using h
    simp only [List.foldl_cons, add_key, hk, if_false]
    rw [ih _ h']
    simp

/-- The keys after a loop that ends with no exception pending. -/
theorem serialize_loop_keys (obj : PyObj) (fields : List Field) :
    ∀ (i : Nat) (st : Interp) (dict m : Dict) (st1 : Interp), st.err = Option.none →
    serialize_loop obj i fields st dict = .next m st1 → st1.err = Option.none →
    keys m = (dispatched_names fields).foldl add_key (keys dict) ∧
      ∀ f ∈ fields, dispatched f.write_only = true → f.field_name ≠ Option.none := by
  induction fields with
  | nil =>
    intro i st dict m st1 _ h _
    simp only [serialize_loop, Step.next.injEq] at h
    simp [dispatched_names, h.1]
  | cons f rest ih =>
    intro i st dict m st1 hst h h1
    rw [serialize_loop_cons _ _ _ _ _ _ hst] at h
    rcases hr : serialize_field obj i f st dict with ⟨d1, s1⟩ | t
    · rw [hr] at h
      simp only at h
      rcases hs1 : s1.err with _ | e1
      · obtain ⟨hk, hn⟩ := ih (i + 1) s1 d1 m st1 hs1 h h1
        rcases serialize_field_success obj i f st dict d1 s1 hst hr hs1 with
          ⟨hd, hd1, _⟩ | ⟨hd, k, v, hfn, _, hd1⟩
        · subst hd1
          refine ⟨?_, ?_⟩
          · rw [hk]
            simp [dispatched_names, List.filter_cons, hd]
          · intro g hg hgd
            rcases List.mem_cons.1 hg with rfl | hg
            · simp [hd] at hgd
            · exact hn g hg hgd
        · subst hd1
          refine ⟨?_, ?_⟩
          · rw [hk, keys_setItem]
            simp [dispatched_names, List.filter_cons, hd, hfn, List.filterMap_cons] at *
          · intro g hg hgd
            rcases List.mem_cons.1 hg with rfl | hg
            · simp [hfn]
            · exact hn g hg hgd
      · rw [serialize_loop_err _ _ _ _ _ e1 hs1] at h
        simp only [Step.next.injEq] at h
        rw [h.2] at hs1
        rw [hs1] at h1
        exact absurd h1 (by simp)
    · rw [hr] at h
      simp at h

/-- Dropping the fields whose write-only attribute is truthy does not change the mapping
of a loop that ends with no exception pending. -/
theorem serialize_loop_filter (obj : PyObj) (fields : List Field) :
    ∀ (i j : Nat) (st st' : Interp) (dict m : Dict) (st1 : Interp),
    st.err = Option.none → st'.err = Option.none →
    serialize_loop obj i fields st dict = .next m st1 → st1.err = Option.none →
    ∃ st2, serialize_loop obj j (without_write_only fields) st' dict = .next m st2 ∧
      st2.err = Option.none := by
  induction fields with
  | nil =>
    intro i j st st' dict m st1 _ hst' h _
    simp only [serialize_loop, Step.next.injEq] at h
    exact ⟨st', by simp [without_write_only, serialize_loop, h.1], hst'⟩
  | cons f rest ih =>
    intro i j st st' dict m st1 hst hst' h h1
    rw [serialize_loop_cons _ _ _ _ _ _ hst] at h
    rcases hr : serialize_field obj i f st dict with ⟨d1, s1⟩ | t
    · rw [hr] at h
      simp only at h
      rcases hs1 : s1.err with _ | e1
      · by_cases hw : present_truthy f.write_only = true
        · have hd := truthy_not_dispatched _ hw
          rcases serialize_field_success obj i f st dict d1 s1 hst hr hs1 with
            ⟨_, hd1, _⟩ | ⟨hd', _⟩
          · subst hd1
            obtain ⟨st2, h2, h3⟩ := ih (i + 1) j s1 st' d1 m st1 hs1 hst' h h1
            refine ⟨st2, ?_, h3⟩
            simpa [without_write_only, List.filter_cons, hw] using h2
          · rw [hd] at hd'
            exact absurd hd' (by simp)
        · have hf := serialize_field_forget obj i j f st st' dict hst hst'
          rw [hr] at hf
          rcases hr' : serialize_field obj j f st' dict with ⟨d2, s2⟩ | t2
          · rw [hr'] at hf
            simp only [Step.forget, Option.some.injEq, Prod.mk.injEq] at hf
            have hs2 : s2.err = Option.none := by rw [← hf.2]; exact hs1
            obtain ⟨st2, h2, h3⟩ := ih (i + 1) (j + 1) s1 s2 d1 m st1 hs1 hs2 h h1
            refine ⟨st2, ?_, h3⟩
            have hkeep : without_write_only (f :: rest) = f :: without_write_only rest := by
              simp [without_write_only, List.filter_cons, hw]
            rw [hkeep, serialize_loop_cons _ _ _ _ _ _ hst', hr']
            simp only
            rw [← hf.1]
            exact h2
          · rw [hr'] at hf
            simp [Step.forget] at hf
      · rw [serialize_loop_err _ _ _ _ _ e1 hs1] at h
        simp only [Step.next.injEq] at h
        rw [h.2] at hs1
        rw [hs1] at h1
        exact absurd h1 (by simp)
    · rw [hr] at h
      simp at h

/-! ## Decimal digits -/

theorem digitChar_isDigit (m : Nat) (h : m < 10) : (Nat.digitChar m).isDigit = true := by
  interval_cases m <;> rfl

theorem toDigitsCore_isDigit : ∀ (fuel n : Nat) (acc : List Char),
    (∀ c ∈ acc, c.isDigit = true) → ∀ c ∈ Nat.toDigitsCore 10 fuel n acc, c.isDigit = true := by
  intro fuel
  induction fuel with
  | zero => intro n acc h c hc; exact h c (by simpa [Nat.toDigitsCore] using hc)
  | succ fuel ih =>
    intro n acc h c hc
    have hacc : ∀ c ∈ Nat.digitChar (n % 10) :: acc, c.isDigit = true := by
      intro c hc
      rcases List.mem_cons.1 hc with rfl | hc
      · exact digitChar_isDigit _ (Nat.mod_lt _ (by decide))
      · exact h c hc
    simp only [Nat.toDigitsCore] at hc
    split at hc
    · exact hacc c hc
    · exact ih _ _ hacc c hc

theorem toDigits_isDigit (n : Nat) : ∀ c ∈ Nat.toDigits 10 n, c.isDigit = true :=
  toDigitsCore_isDigit _ _ [] (by simp)

theorem fmt_0d_isDigit (w n : Nat) : ∀ c ∈ fmt_0d w n, c.isDigit = true := by
  intro c hc
  rcases List.mem_append.1 hc with h | h
  · rw [(List.mem_replicate.1 h).2]
    rfl
  · exact toDigits_isDigit n c h

theorem fmt_0d_length (w n : Nat) (hw : 0 < w) (h : n < 10 ^ w) : (fmt_0d w n).length = w := by
  have := Nat.toDigitsCore_length 10 (by decide) (n + 1) n w h hw
  simp only [fmt_0d, List.length_append, List.length_replicate, Nat.toDigits]
  omega

theorem toDigitsCore_fuel : ∀ (fuel1 fuel2 n : Nat) (acc : List Char), n < fuel1 → n < fuel2 →
    Nat.toDigitsCore 10 fuel1 n acc = Nat.toDigitsCore 10 fuel2 n acc := by
  intro fuel1
  induction fuel1 with
  | zero => intro fuel2 n acc h; exact absurd h (Nat.not_lt_zero _)
  | succ k ih =>
    intro fuel2 n acc h1 h2
    rcases fuel2 with _ | l
    · exact absurd h2 (Nat.not_lt_zero _)
    · simp only [Nat.toDigitsCore]
      split
      · rfl
      · have : n / 10 < n := Nat.div_lt_self (by omega) (by decide)
        exact ih l (n / 10) _ (by omega) (by omega)

theorem toDigitsCore_acc : ∀ (fuel n : Nat) (acc : List Char),
    Nat.toDigitsCore 10 fuel n acc = Nat.toDigitsCore 10 fuel n [] ++ acc := by
  intro fuel
  induction fuel with
  | zero => intro n acc; simp [Nat.toDigitsCore]
  | succ k ih =>
    intro n acc
    simp only [Nat.toDigitsCore]
    split
    · simp
    · rw [ih _ (_ :: acc), ih _ [_]]
      simp

/-- A number below ten prints as its one digit. -/
theorem toDigits_small (n : Nat) (h : n < 10) : Nat.toDigits 10 n = [Nat.digitChar n] := by
  have h0 : n / 10 = 0 := Nat.div_eq_of_lt h
  simp [Nat.toDigits, Nat.toDigitsCore, h0, Nat.mod_eq_of_lt h]

/-- A number from ten on prints as its tenth part followed by its last digit. -/
theorem toDigits_step (n : Nat) (h : 10 ≤ n) :
    Nat.toDigits 10 n = Nat.toDigits 10 (n / 10) ++ [Nat.digitChar (n % 10)] := by
  have h0 : n / 10 ≠ 0 := by omega
  have hlt : n / 10 < n := Nat.div_lt_self (by omega) (by decide)
  have e : Nat.toDigits 10 n = Nat.toDigitsCore 10 n (n / 10) [Nat.digitChar (n % 10)] := by
    simp only [Nat.toDigits, Nat.toDigitsCore, h0, if_false]
  rw [e, toDigitsCore_acc, toDigitsCore_fuel n (n / 10 + 1) (n / 10) [] hlt (by omega)]
  rfl

theorem toDigits_length_four (n : Nat) (h1 : 1000 ≤ n) (h2 : n ≤ 9999) :
    (Nat.toDigits 10 n).length = 4 := by
  rw [toDigits_step n (by omega), toDigits_step (n / 10) (by omega),
    toDigits_step (n / 10 / 10) (by omega), toDigits_small (n / 10 / 10 / 10) (by omega)]
  rfl

/-! ## The timestamp text -/

/-- For a valid value whose year has four digits the text has 27 characters. -/
theorem isoformat_length (d : DateTime) (hv : d.valid) (hy : 1000 ≤ d.year) :
    (_isoformat d).length = 27 := by
  obtain ⟨_, h2, _, h4, _, h6, h7, h8, h9, h10⟩ := hv
  have e1 := toDigits_length_four d.year hy h2
  have e2 := fmt_0d_length 2 d.month (by decide) (by omega)
  have e3 := fmt_0d_length 2 d.day (by decide) (by omega)
  have e4 := fmt_0d_length 2 d.hour (by decide) (by omega)
  have e5 := fmt_0d_length 2 d.minute (by decide) (by omega)
  have e6 := fmt_0d_length 2 d.second (by decide) (by omega)
  have e7 := fmt_0d_length 6 d.microsecond (by decide) (by omega)
  simp only [_isoformat, String.length, List.length_append, List.length_cons, fmt_d, e1, e2, e3,
    e4, e5, e6, e7, List.length_nil]

theorem isoformat_body_chars (d : DateTime) :
    ∀ c ∈ fmt_d d.year ++ '-' :: fmt_0d 2 d.month ++ '-' :: fmt_0d 2 d.day
      ++ 'T' :: fmt_0d 2 d.hour ++ ':' :: fmt_0d 2 d.minute ++ ':' :: fmt_0d 2 d.second,
      c.isDigit = true ∨ c = '-' ∨ c = 'T' ∨ c = ':' := by
  intro c hc
  simp only [List.mem_append, List.mem_cons, or_assoc] at hc
  rcases hc with h | h | h | h | h | h | h | h | h | h | h
  · exact Or.inl (toDigits_isDigit _ c h)
  · exact Or.inr (Or.inl h)
  · exact Or.inl (fmt_0d_isDigit _ _ c h)
  · exact Or.inr (Or.inl h)
  · exact Or.inl (fmt_0d_isDigit _ _ c h)
  · exact Or.inr (Or.inr (Or.inl h))
  · exact Or.inl (fmt_0d_isDigit _ _ c h)
  · exact Or.inr (Or.inr (Or.inr h))
  · exact Or.inl (fmt_0d_isDigit _ _ c h)
  · exact Or.inr (Or.inr (Or.inr h))
  · exact Or.inl (fmt_0d_isDigit _ _ c h)

/-- The text ends with a dot, the microseconds on six digits and `Z`; no dot comes before. -/
theorem isoformat_fraction (d : DateTime) (h : d.microsecond ≤ 999999) :
    ∃ body : List Char,
      (_isoformat d).data = body ++ '.' :: fmt_0d 6 d.microsecond ++ ['Z'] ∧
      '.' ∉ body ∧ (fmt_0d 6 d.microsecond).length = 6 ∧
      ∀ c ∈ fmt_0d 6 d.microsecond, c.isDigit = true := by
  refine ⟨fmt_d d.year ++ '-' :: fmt_0d 2 d.month ++ '-' :: fmt_0d 2 d.day
      ++ 'T' :: fmt_0d 2 d.hour ++ ':' :: fmt_0d 2 d.minute ++ ':' :: fmt_0d 2 d.second,
    ?_, ?_, ?_, fmt_0d_isDigit _ _⟩
  · simp [_isoformat]
  · intro hm
    rcases isoformat_body_chars d _ hm with h1 | h1 | h1 | h1
    · exact absurd h1 (by decide)
    · exact absurd h1 (by decide)
    · exact absurd h1 (by decide)
    · exact absurd h1 (by decide)
  · exact fmt_0d_length 6 _ (by decide) (by omega)

/-! ## The marker comparison -/

theorem char_toNat_inj (c d : Char) (h : c.toNat = d.toNat) : c = d := by
  apply Char.ext
  apply UInt32.ext
  exact h

theorem utf8EncodeChar_ascii (c : Char) (h : c.toNat < 128) : utf8EncodeChar c = [c.toNat] := by
  simp [utf8EncodeChar, h]

theorem utf8EncodeChar_high (c : Char) (h : 128 ≤ c.toNat) :
    ∃ b rest, utf8EncodeChar c = b :: rest ∧ 128 ≤ b := by
  unfold utf8EncodeChar
  simp only
  split
  · omega
  · split
    · exact ⟨_, _, rfl, by omega⟩
    · split
      · exact ⟨_, _, rfl, by omega⟩
      · exact ⟨_, _, rfl, by omega⟩

/-- The C string of the UTF-8 bytes of a text equals an ASCII text without NUL exactly when
the text, cut at its first NUL character, is that text. -/
theorem cstr_utf8 (s : List Char) :
    ∀ t : List Char, (∀ c ∈ t, c.toNat < 128 ∧ c.toNat ≠ 0) →
    (cstr (s.flatMap utf8EncodeChar) = t.map Char.toNat ↔
      s.takeWhile (fun c => c != Char.ofNat 0) = t) := by
  induction s with
  | nil =>
    intro t _
    cases t <;> simp [cstr]
  | cons c s ih =>
    intro t ht
    by_cases h0 : c.toNat = 0
    · have hc : c = Char.ofNat 0 := char_toNat_inj _ _ h0
      subst hc
      cases t <;> simp [cstr, utf8EncodeChar]
    · have hne : c ≠ Char.ofNat 0 := fun hc => h0 (by rw [hc]; rfl)
      by_cases h1 : c.toNat < 128
      · rcases t with _ | ⟨c', t'⟩
        · simp [cstr, utf8EncodeChar_ascii c h1, h0, hne]
        · have ih' := ih t' (fun x hx => ht x (List.mem_cons_of_mem _ hx))
          simp only [cstr] at ih'
          simp only [cstr, List.flatMap_cons, utf8EncodeChar_ascii c h1, List.cons_append,
            List.nil_append, List.map_cons]
          rw [List.takeWhile_cons_of_pos (by simpa using h0),
            List.takeWhile_cons_of_pos (by simpa using hne)]
          simp only [List.cons.injEq, ih']
          constructor
          · rintro ⟨ha, hb⟩
            exact ⟨char_toNat_inj _ _ ha, hb⟩
          · rintro ⟨ha, hb⟩
            exact ⟨by rw [ha], hb⟩
      · obtain ⟨b, rest, hb, hge⟩ := utf8EncodeChar_high c (by omega)
        rcases t with _ | ⟨c', t'⟩
        · simp only [cstr, List.flatMap_cons, hb, List.cons_append, List.map_nil]
          rw [List.takeWhile_cons_of_pos (by simp; omega),
            List.takeWhile_cons_of_pos (by simpa using hne)]
          simp
        · have hc' := (ht c' (List.mem_cons_self _ _)).1
          simp only [cstr, List.flatMap_cons, hb, List.cons_append, List.map_cons]
          rw [List.takeWhile_cons_of_pos (by simp; omega),
            List.takeWhile_cons_of_pos (by simpa using hne)]
          simp only [List.cons.injEq]
          constructor
          · rintro ⟨ha, _⟩
            omega
          · rintro ⟨ha, _⟩
            rw [ha] at h1
            exact absurd hc' h1

/-- The comparison of line 89 on a text type name: the text, cut at its first NUL
character, is `DateTimeField`. -/
theorem strcmp_marker_iff (s : String) :
    strcmp_eq (PyUnicode_AsUTF8String s) datetime_type = true ↔
      s.toList.takeWhile (fun c => c != Char.ofNat 0) = "DateTimeField".toList := by
  have hm : cstr datetime_type = "DateTimeField".toList.map Char.toNat := by decide
  simp only [strcmp_eq, beq_iff_eq, hm, PyUnicode_AsUTF8String]
  exact cstr_utf8 s.toList _ (by decide)

/-! ## The write-only test -/

theorem dispatched_iff (w : Option PyVal) :
    dispatched w = true ↔ w = Option.none ∨ w = some (.bool false) := by
  rcases w with _ | (_ | (_ | _) | _ | _ | _ | _ | _ | _) <;> simp [dispatched]

/-! ## Single fields and their entries -/

theorem serialize_single (obj : PyObj) (f : Field) (d1 : Dict) (tr : List Event)
    (h : serialize_field obj 0 f ⟨Option.none, []⟩ [] = .next d1 ⟨Option.none, tr⟩) :
    serialize obj [f] = (.ok d1, tr) := by
  simp [serialize, serialize_loop, h]

theorem explicit_marker_is_timestamp (f : Field)
    (ht : f.type_name = some (.str "DateTimeField")) : is_timestamp (field_tag f) = true := by
  simp only [field_tag, resolved_type_name, ht, type_name_c, is_timestamp]
  decide

/-- The loop body on a field the write-only test lets through, whose name is present,
when the dispatcher returns a value. -/
theorem serialize_field_value (obj : PyObj) (i : Nat) (f : Field) (st : Interp) (dict : Dict)
    (n : String) (v : PyVal) (s : Interp) (h : st.err = Option.none)
    (hw : f.write_only = Option.none ∨ f.write_only = some (.bool false))
    (hn : f.field_name = some n)
    (hv : _serialize_value obj i (some n) f (field_tag f)
      ⟨Option.none, st.trace ++ attr_reads i f⟩ = .next (some v) s) :
    serialize_field obj i f st dict = .next (PyDict_SetItem dict n v) s := by
  have hd : dispatched f.write_only = true := (dispatched_iff _).2 hw
  have he : attr_err f = Option.none := by simp [attr_err, hn]
  rw [serialize_field_eq _ _ _ _ _ h]
  simp only [hd, if_true]
  rw [hn, he, hv]

/-- Fields that do not insert under a key leave its entry as it is. -/
theorem serialize_loop_get (obj : PyObj) (fields : List Field) (k : String) :
    ∀ (i : Nat) (st : Interp) (dict m : Dict) (st1 : Interp), st.err = Option.none →
    serialize_loop obj i fields st dict = .next m st1 → st1.err = Option.none →
    (∀ g ∈ fields, dispatched g.write_only = true → g.field_name ≠ some k) →
    Dict.get m k = Dict.get dict k := by
  induction fields with
  | nil =>
    intro i st dict m st1 _ h _ _
    simp only [serialize_loop, Step.next.injEq] at h
    rw [h.1]
  | cons f rest ih =>
    intro i st dict m st1 hst h h1 hk
    rw [serialize_loop_cons _ _ _ _ _ _ hst] at h
    rcases hr : serialize_field obj i f st dict with ⟨d1, s1⟩ | t
    · rw [hr] at h
      simp only at h
      rcases hs1 : s1.err with _ | e1
      · have hrest := ih (i + 1) s1 d1 m st1 hs1 h h1
          (fun g hg => hk g (List.mem_cons_of_mem _ hg))
        rcases serialize_field_success obj i f st dict d1 s1 hst hr hs1 with
          ⟨_, hd1, _⟩ | ⟨hd, k', v, hfn, _, hd1⟩
        · rw [hrest, hd1]
        · have hne : k ≠ k' := by
            intro he
            apply hk f (List.mem_cons_self _ _) hd
            rw [hfn, he]
          rw [hrest, hd1, get_setItem_other _ _ _ _ hne]
      · rw [serialize_loop_err _ _ _ _ _ e1 hs1] at h
        simp only [Step.next.injEq] at h
        rw [h.2] at hs1
        rw [hs1] at h1
        exact absurd h1 (by simp)
    · rw [hr] at h
      simp at h

/-- In a successful call, a field whose pass of the loop body inserts `n -> v` from every
state with no exception pending leaves that entry in the result, unless a later field that
is let through has the same name. -/
theorem entry_survives (obj : PyObj) (pre : List Field) (f : Field) (post : List Field)
    (m : Dict) (tr : List Event) (n : String) (v : PyVal)
    (h : serialize obj (pre ++ f :: post) = (.ok m, tr))
    (hstep : ∀ (j : Nat) (s : Interp) (dc : Dict), s.err = Option.none →
      ∃ s1, serialize_field obj j f s dc = .next (PyDict_SetItem dc n v) s1)
    (hpost : ∀ g ∈ post, dispatched g.write_only = true → g.field_name ≠ some n) :
    Dict.get m n = some v := by
  have hl := (serialize_eq_ok obj _ m tr).1 h
  rw [serialize_loop_append] at hl
  rcases hp : serialize_loop obj 0 pre ⟨Option.none, []⟩ [] with ⟨d1, s1⟩ | t
  · rw [hp] at hl
    simp only at hl
    rcases hs1 : s1.err with _ | e1
    · rw [serialize_loop_cons _ _ _ _ _ _ hs1] at hl
      obtain ⟨s2, hs2⟩ := hstep (0 + pre.length) s1 d1 hs1
      rw [hs2] at hl
      simp only at hl
      rcases hs2e : s2.err with _ | e2
      · rw [serialize_loop_get obj post n _ s2 _ m _ hs2e hl rfl hpost]
        exact get_setItem_same _ _ _
      · rw [serialize_loop_err _ _ _ _ _ e2 hs2e] at hl
        simp only [Step.next.injEq] at hl
        rw [hl.2] at hs2e
        exact absurd hs2e (by simp)
    · rw [serialize_loop_err _ _ _ _ _ e1 hs1] at hl
      simp only [Step.next.injEq] at hl
      rw [hl.2] at hs1
      exact absurd hs1 (by simp)
  · rw [hp] at hl
    simp at hl

/-- A field whose pass of the loop body inserts `n -> v` and adds the events `ev i`: the
call on that field alone, and its entry in any successful call. -/
theorem field_entry (obj : PyObj) (f : Field) (n : String) (v : PyVal) (ev : Nat → List Event)
    (hstep : ∀ (i : Nat) (st : Interp) (dict : Dict), st.err = Option.none →
      serialize_field obj i f st dict =
        .next (PyDict_SetItem dict n v) ⟨Option.none, st.trace ++ ev i⟩) :
    serialize obj [f] = (.ok [(n, v)], ev 0) ∧
    ∀ (pre post : List Field) (m : Dict) (tr : List Event),
      serialize obj (pre ++ f :: post) = (.ok m, tr) →
      (∀ g ∈ post, dispatched g.write_only = true → g.field_name ≠ some n) →
      Dict.get m n = some v := by
  refine ⟨?_, ?_⟩
  · have h0 := hstep 0 ⟨Option.none, []⟩ [] rfl
    simp only [List.nil_append] at h0
    rw [serialize_single obj f _ _ h0]
    rfl
  · intro pre post m tr h hpost
    exact entry_survives obj pre f post m tr n v h
      (fun j s dc hs => ⟨_, hstep j s dc hs⟩) hpost

/-! ## C1: key order -/

/-- C1, as stated, fails on two inputs: a field whose `write_only` is `0` is not truthy and
is left out all the same, and two fields named alike give one key. -/
theorem key_order_counterexample :
    (present_truthy title_write_only_zero.write_only = false ∧
      result_keys (serialize sample_obj [title_write_only_zero]) = some [] ∧
      result_keys (serialize sample_obj [title_write_only_zero]) ≠
        some (not_write_only_names [title_write_only_zero])) ∧
    (result_keys (serialize sample_obj [title_field, title_field]) = some ["title"] ∧
      result_keys (serialize sample_obj [title_field, title_field]) ≠
        some (not_write_only_names [title_field, title_field])) := by
  decide

/-- C1, amended: when `serialize` succeeds, the keys of the result mapping, in insertion
order, are the `field_name` values of the input fields in input order, without the fields
whose `write_only` attribute is present and is not `False`, a repeated name kept at its
first occurrence only. Every field let through has a name, and when those names are
pairwise distinct the keys are exactly that list. -/
theorem keys_follow_input_order (obj : PyObj) (fields : List Field) (m : Dict)
    (tr : List Event) (h : serialize obj fields = (.ok m, tr)) :
    keys m = first_occurrences (dispatched_names fields) ∧
    (∀ f ∈ fields, dispatched f.write_only = true → f.field_name ≠ Option.none) ∧
    ((dispatched_names fields).Nodup → keys m = dispatched_names fields) := by
  have hl := (serialize_eq_ok obj fields m tr).1 h
  obtain ⟨hk, hn⟩ := serialize_loop_keys obj fields 0 ⟨Option.none, []⟩ [] m
    ⟨Option.none, tr⟩ rfl hl rfl
  refine ⟨hk, hn, ?_⟩
  intro hnd
  rw [hk]
  exact foldl_add_key_nodup _ [] (by simpa using hnd)

/-- The amended C1 on three fields named `title`, the middle one with `write_only = None`. -/
theorem keys_follow_input_order_witness :
    serialize sample_obj [title_field, title_write_only_none, title_field] =
      (.ok [("title", .str "hello")],
        [.fieldAttr 0 "field_name", .fieldAttr 0 "type_name", .fieldAttr 0 "write_only",
         .getAttribute 0, .toRepresentation 0 (.str "hello"),
         .fieldAttr 1 "field_name", .fieldAttr 1 "type_name", .fieldAttr 1 "write_only",
         .fieldAttr 2 "field_name", .fieldAttr 2 "type_name", .fieldAttr 2 "write_only",
         .getAttribute 2, .toRepresentation 2 (.str "hello")]) ∧
    keys [("title", PyVal.str "hello")] =
      first_occurrences (dispatched_names [title_field, title_write_only_none, title_field]) :=
  ⟨rfl, (keys_follow_input_order sample_obj [title_field, title_write_only_none, title_field]
    _ _ rfl).1⟩

/-! ## C2, C3: write-only fields -/

/-- C2: when `serialize` succeeds, the fields whose `write_only` attribute is present and
truthy contribute nothing: the mapping is the one the call returns on the sequence without
them, every event of the dispatcher in the trace belongs to a field whose `write_only` is
not truthy, and a sequence of such fields only gives the empty mapping and no dispatcher
event at all. -/
theorem write_only_fields_are_skipped (obj : PyObj) (fields : List Field) (m : Dict)
    (tr : List Event) (h : serialize obj fields = (.ok m, tr)) :
    (serialize obj (without_write_only fields)).1 = .ok m ∧
    (∀ e ∈ tr, e.isDispatch = true →
      ∃ f, fields[e.field]? = some f ∧ present_truthy f.write_only = false) ∧
    ((∀ f ∈ fields, present_truthy f.write_only = true) →
      m = [] ∧ ∀ e ∈ tr, e.isDispatch = false) := by
  have hl := (serialize_eq_ok obj fields m tr).1 h
  obtain ⟨st2, h2, h3⟩ := serialize_loop_filter obj fields 0 0 ⟨Option.none, []⟩
    ⟨Option.none, []⟩ [] m ⟨Option.none, tr⟩ rfl rfl hl rfl
  have hdisp : ∀ e ∈ tr, e.isDispatch = true →
      ∃ f, fields[e.field]? = some f ∧ present_truthy f.write_only = false := by
    intro e he hd
    have ht := serialize_loop_trace obj fields 0 ⟨Option.none, []⟩ [] e
      (by rw [hl]; exact he)
    rcases ht with ht | ⟨_, f, hf, hfd⟩
    · simp at ht
    · refine ⟨f, by simpa using hf, ?_⟩
      rcases hp : present_truthy f.write_only with _ | _
      · rfl
      · have := truthy_not_dispatched _ hp
        rw [hfd hd] at this
        exact absurd this (by simp)
  refine ⟨?_, hdisp, ?_⟩
  · simp only [serialize, h2, h3]
  · intro hall
    have hnil : without_write_only fields = [] := by
      simp only [without_write_only, List.filter_eq_nil_iff]
      intro f hf
      simp [hall f hf]
    rw [hnil] at h2
    simp only [serialize_loop, Step.next.injEq] at h2
    refine ⟨h2.1.symm, ?_⟩
    intro e he
    rcases hd : e.isDispatch with _ | _
    · rfl
    · obtain ⟨f, hf, hp⟩ := hdisp e he hd
      have := hall f (List.getElem?_mem hf)
      rw [hp] at this
      exact absurd this (by simp)

/-- C2 on the field `secret` with `write_only = True`: the empty mapping. -/
theorem write_only_fields_are_skipped_witness :
    serialize sample_obj [secret_field] =
      (.ok [], [.fieldAttr 0 "field_name", .fieldAttr 0 "type_name",
        .fieldAttr 0 "write_only"]) ∧
    present_truthy secret_field.write_only = true ∧
    (serialize sample_obj (without_write_only [secret_field])).1 = .ok [] ∧
    (([] : Dict) = [] ∧
      ∀ e ∈ [Event.fieldAttr 0 "field_name", .fieldAttr 0 "type_name",
        .fieldAttr 0 "write_only"], e.isDispatch = false) :=
  ⟨rfl, rfl, (write_only_fields_are_skipped sample_obj [secret_field] [] _ rfl).1,
    (write_only_fields_are_skipped sample_obj [secret_field] [] _ rfl).2.2
      (fun f hf => by rw [List.mem_singleton.1 hf]; rfl)⟩

/-- C3, as stated, fails on a field whose `write_only` is `None`: the value is not truthy
and the dispatcher would yield a value for the field, yet the field is skipped, its
`get_attribute` is not called and it gets no entry. -/
theorem falsy_write_only_counterexample :
    present_truthy title_write_only_none.write_only = false ∧
    Step.value (_serialize_value sample_obj 0 (some "title") title_write_only_none
      (field_tag title_write_only_none) ⟨Option.none, []⟩) = some (some (.str "hello")) ∧
    serialize sample_obj [title_write_only_none] =
      (.ok [], [.fieldAttr 0 "field_name", .fieldAttr 0 "type_name",
        .fieldAttr 0 "write_only"]) ∧
    result_get (serialize sample_obj [title_write_only_none]) "title" = some Option.none :=
  ⟨rfl, rfl, rfl, rfl⟩

/-- C3, amended: a field is skipped exactly when its `write_only` attribute is present and
is not the `False` singleton. With no exception pending, such a field leaves the mapping
as it is and adds no dispatcher event; a field whose `write_only` is absent or `False` is
handed to the dispatcher, and when the dispatcher yields a value `v` the mapping gets
`field_name -> v`. -/
theorem skipped_iff_write_only_not_false (obj : PyObj) (i : Nat) (f : Field) (st : Interp)
    (dict : Dict) (h : st.err = Option.none) :
    (∀ w, f.write_only = some w → w ≠ .bool false →
      serialize_field obj i f st dict = .next dict ⟨attr_err f, st.trace ++ attr_reads i f⟩ ∧
      ∀ e ∈ attr_reads i f, e.isDispatch = false) ∧
    ((f.write_only = Option.none ∨ f.write_only = some (.bool false)) →
      (serialize_field obj i f st dict).trace =
        (_serialize_value obj i f.field_name f (field_tag f)
          ⟨attr_err f, st.trace ++ attr_reads i f⟩).trace ∧
      ∀ n v s, f.field_name = some n →
        _serialize_value obj i (some n) f (field_tag f)
          ⟨Option.none, st.trace ++ attr_reads i f⟩ = .next (some v) s →
        serialize_field obj i f st dict = .next (PyDict_SetItem dict n v) s ∧
        Dict.get (PyDict_SetItem dict n v) n = some v) := by
  refine ⟨?_, ?_⟩
  · intro w hw hne
    have hd : dispatched f.write_only = false := by
      rcases hdd : dispatched f.write_only with _ | _
      · rfl
      · rcases (dispatched_iff _).1 hdd with h1 | h1
        · rw [hw] at h1
          exact absurd h1 (by simp)
        · rw [hw] at h1
          exact absurd (Option.some.inj h1) hne
    refine ⟨?_, fun e he => (attr_reads_events i f e he).2⟩
    rw [serialize_field_eq _ _ _ _ _ h]
    simp [hd]
  · intro hw
    have hd : dispatched f.write_only = true := (dispatched_iff _).2 hw
    refine ⟨?_, ?_⟩
    · rw [serialize_field_eq _ _ _ _ _ h]
      simp only [hd, if_true]
      rcases _serialize_value obj i f.field_name f (field_tag f)
          ⟨attr_err f, st.trace ++ attr_reads i f⟩ with ⟨v, s⟩ | t
      · rcases v with _ | v
        · rfl
        · rcases f.field_name with _ | k <;> rfl
      · rfl
    · intro n v s hn hv
      exact ⟨serialize_field_value obj i f st dict n v s h hw hn hv, get_setItem_same _ _ _⟩

/-- The amended C3 on a field with `write_only = 0`: skipped. -/
theorem skipped_iff_write_only_not_false_witness :
    (⟨Option.none, []⟩ : Interp).err = Option.none ∧
    title_write_only_zero.write_only = some (.int 0) ∧ PyVal.int 0 ≠ .bool false ∧
    serialize_field sample_obj 0 title_write_only_zero ⟨Option.none, []⟩ [] =
      .next [] ⟨attr_err title_write_only_zero, [] ++ attr_reads 0 title_write_only_zero⟩ :=
  ⟨rfl, rfl, by simp,
    ((skipped_iff_write_only_not_false sample_obj 0 title_write_only_zero ⟨Option.none, []⟩ []
      rfl).1 (.int 0) rfl (by simp)).1⟩

/-! ## C4: the timestamp format -/

/-- C4 fails on the code for every year below 1000: the year is printed with `%d`, so the
valid value 0999-12-31 23:59:59.999999 gives a text of 26 characters that starts with
`999-`, not the 27 characters with a four-digit year the claim states. -/
theorem isoformat_year_999 :
    year_999.valid ∧ _isoformat year_999 = "999-12-31T23:59:59.999999Z" ∧
    (_isoformat year_999).length = 26 ∧ (_isoformat year_999).length ≠ 27 := by
  decide

/-! ## C5 to C8: the timestamp fast path -/

/-- C5, as stated, fails on a field whose `write_only` is `None`: the field is not
write-only (the value is not truthy), it has the explicit type name `"DateTimeField"`, no
`as_dict` and a datetime value on the object, yet line 63 skips it: the attribute of the
object is not read and the mapping has no entry `created`. -/
theorem timestamp_write_only_none_counterexample :
    present_truthy created_write_only_none.write_only = false ∧
    created_write_only_none.type_name = some (.str "DateTimeField") ∧
    created_write_only_none.as_dict = Option.none ∧
    sample_obj "created" = some (.datetime ⟨2024, 1, 5, 8, 3, 2, 500000⟩) ∧
    serialize sample_obj [created_write_only_none] =
      (.ok [], [.fieldAttr 0 "field_name", .fieldAttr 0 "type_name",
        .fieldAttr 0 "write_only"]) ∧
    result_get (serialize sample_obj [created_write_only_none]) "created" =
      some Option.none :=
  ⟨rfl, rfl, rfl, rfl, rfl, rfl⟩

/-- C5, amended: a field whose `write_only` is absent or is exactly `False`, with explicit
`type_name` `"DateTimeField"`, no `as_dict` attribute and a datetime attribute value `d` on
the object gets the entry `field_name -> _isoformat d` as bare text: in the loop body from any state
with no exception pending, in the call on that field alone, and in the result of any
successful call unless a later field let through has the same name. The text ends with a
dot, six digits of microseconds and `Z`. -/
theorem timestamp_field_entry (obj : PyObj) (f : Field) (n : String) (d : DateTime)
    (hw : f.write_only = Option.none ∨ f.write_only = some (.bool false))
    (ht : f.type_name = some (.str "DateTimeField")) (ha : f.as_dict = Option.none)
    (hn : f.field_name = some n) (hv : obj n = some (.datetime d)) :
    (∀ (i : Nat) (st : Interp) (dict : Dict), st.err = Option.none →
      serialize_field obj i f st dict =
        .next (PyDict_SetItem dict n (.str (_isoformat d)))
          ⟨Option.none, st.trace ++ (attr_reads i f ++
            [.objAttr i n, .format i, .fieldAttr i "as_dict"])⟩) ∧
    serialize obj [f] = (.ok [(n, .str (_isoformat d))],
      attr_reads 0 f ++ [.objAttr 0 n, .format 0, .fieldAttr 0 "as_dict"]) ∧
    (∀ (pre post : List Field) (m : Dict) (tr : List Event),
      serialize obj (pre ++ f :: post) = (.ok m, tr) →
      (∀ g ∈ post, dispatched g.write_only = true → g.field_name ≠ some n) →
      Dict.get m n = some (.str (_isoformat d))) ∧
    (d.microsecond ≤ 999999 → ∃ body : List Char,
      (_isoformat d).data = body ++ '.' :: fmt_0d 6 d.microsecond ++ ['Z'] ∧
      '.' ∉ body ∧ (fmt_0d 6 d.microsecond).length = 6 ∧
      ∀ c ∈ fmt_0d 6 d.microsecond, c.isDigit = true) := by
  have htag := explicit_marker_is_timestamp f ht
  have step : ∀ (i : Nat) (st : Interp) (dict : Dict), st.err = Option.none →
      serialize_field obj i f st dict =
        .next (PyDict_SetItem dict n (.str (_isoformat d)))
          ⟨Option.none, st.trace ++ (attr_reads i f ++
            [.objAttr i n, .format i, .fieldAttr i "as_dict"])⟩ := by
    intro i st dict hs
    rw [← List.append_assoc]
    exact serialize_field_value obj i f st dict n _ _ hs hw hn
      (fast_bare_absent obj i n f _ _ d htag hv ha)
  obtain ⟨h1, h2⟩ := field_entry obj f n _ _ step
  exact ⟨step, h1, h2, isoformat_fraction d⟩

/-- The amended C5 on the example of the specification: the field `created` with the value
2024-01-05 08:03:02.500000. -/
theorem timestamp_field_entry_witness :
    created_field.type_name = some (.str "DateTimeField") ∧
    created_field.as_dict = Option.none ∧
    sample_obj "created" = some (.datetime ⟨2024, 1, 5, 8, 3, 2, 500000⟩) ∧
    serialize sample_obj [created_field] =
      (.ok [("created", .str "2024-01-05T08:03:02.500000Z")],
        attr_reads 0 created_field ++
          [.objAttr 0 "created", .format 0, .fieldAttr 0 "as_dict"]) :=
  ⟨rfl, rfl, rfl,
    (timestamp_field_entry sample_obj created_field "created"
      ⟨2024, 1, 5, 8, 3, 2, 500000⟩ (Or.inl rfl) rfl rfl rfl rfl).2.1⟩

/-- C6, as stated, fails on a timestamp-tagged field whose `write_only` is `0`: the field
is not write-only (the value is not truthy) and its attribute on the object is `None`, yet
line 63 skips it: the attribute of the object is not read and the mapping has no entry
`deleted`. -/
theorem timestamp_none_write_only_zero_counterexample :
    present_truthy deleted_write_only_zero.write_only = false ∧
    is_timestamp (field_tag deleted_write_only_zero) = true ∧
    sample_obj "deleted" = some .none ∧
    serialize sample_obj [deleted_write_only_zero] =
      (.ok [], [.fieldAttr 0 "field_name", .fieldAttr 0 "type_name",
        .fieldAttr 0 "write_only"]) ∧
    result_get (serialize sample_obj [deleted_write_only_zero]) "deleted" =
      some Option.none :=
  ⟨rfl, by decide, rfl, rfl, rfl⟩

/-- C6, amended: a timestamp-tagged field whose `write_only` is absent or is exactly
`False` and whose attribute on the object is `None` gets the entry `field_name -> None`, whatever its `as_dict` attribute is:
in the loop body, in the call on that field alone and in the result of any successful call
unless a later field let through has the same name. The events the field adds are the
attribute reads on the descriptor and the read on the object: neither the formatter nor a
read of `as_dict`. -/
theorem timestamp_none_entry (obj : PyObj) (f : Field) (n : String)
    (hw : f.write_only = Option.none ∨ f.write_only = some (.bool false))
    (htag : is_timestamp (field_tag f) = true)
    (hn : f.field_name = some n) (hv : obj n = some .none) :
    (∀ (i : Nat) (st : Interp) (dict : Dict), st.err = Option.none →
      serialize_field obj i f st dict =
        .next (PyDict_SetItem dict n .none)
          ⟨Option.none, st.trace ++ (attr_reads i f ++ [.objAttr i n])⟩) ∧
    serialize obj [f] = (.ok [(n, .none)], attr_reads 0 f ++ [.objAttr 0 n]) ∧
    (∀ (pre post : List Field) (m : Dict) (tr : List Event),
      serialize obj (pre ++ f :: post) = (.ok m, tr) →
      (∀ g ∈ post, dispatched g.write_only = true → g.field_name ≠ some n) →
      Dict.get m n = some .none) ∧
    (∀ (i : Nat), ∀ e ∈ attr_reads i f ++ [.objAttr i n],
      e.isDispatch = false ∨ e = .objAttr i n) := by
  have step : ∀ (i : Nat) (st : Interp) (dict : Dict), st.err = Option.none →
      serialize_field obj i f st dict =
        .next (PyDict_SetItem dict n .none)
          ⟨Option.none, st.trace ++ (attr_reads i f ++ [.objAttr i n])⟩ := by
    intro i st dict hs
    rw [← List.append_assoc]
    exact serialize_field_value obj i f st dict n _ _ hs hw hn
      (fast_none obj i n f _ _ htag hv)
  obtain ⟨h1, h2⟩ := field_entry obj f n _ _ step
  refine ⟨step, h1, h2, ?_⟩
  intro i e he
  rcases List.mem_append.1 he with h3 | h3
  · exact Or.inl (attr_reads_events i f e h3).2
  · exact Or.inr (List.mem_singleton.1 h3)

/-- The amended C6 on the field `deleted`, whose value is `None` and whose `as_dict` is
`"instant"`. -/
theorem timestamp_none_entry_witness :
    is_timestamp (field_tag deleted_field) = true ∧
    deleted_field.as_dict = some (.str "instant") ∧
    sample_obj "deleted" = some .none ∧
    serialize sample_obj [deleted_field] =
      (.ok [("deleted", .none)], attr_reads 0 deleted_field ++ [.objAttr 0 "deleted"]) :=
  ⟨by decide, rfl, rfl,
    (timestamp_none_entry sample_obj deleted_field "deleted"
      (Or.inl rfl) (by decide) rfl rfl).2.1⟩

/-- C7: on the timestamp fast path, with a datetime value `d` and an `as_dict` attribute
whose value `a` is truthy, the dispatcher returns the mapping with exactly the entries
`"type" -> a` and `"value" -> _isoformat d`. -/
theorem truthy_as_dict_wraps (obj : PyObj) (i : Nat) (f : Field) (tag : CharPtr) (st : Interp)
    (n : String) (d : DateTime) (a : PyVal) (htag : is_timestamp tag = true)
    (hv : obj n = some (.datetime d)) (ha : f.as_dict = some a) (htr : truthy a = true) :
    _serialize_value obj i (some n) f tag st =
      .next (some (.dict [("type", a), ("value", .str (_isoformat d))]))
        ⟨st.err, st.trace ++ [.objAttr i n, .format i, .fieldAttr i "as_dict"]⟩ := by
  apply fast_wrapped obj i n f tag st d a htag hv ha
  intro hf
  rw [hf] at htr
  simp [truthy] at htr

/-- C7 on the field `created` with `as_dict = "instant"`. -/
theorem truthy_as_dict_wraps_witness :
    is_timestamp (field_tag created_instant) = true ∧
    truthy (.str "instant") = true ∧
    _serialize_value sample_obj 0 (some "created") created_instant (field_tag created_instant)
        ⟨Option.none, []⟩ =
      .next (some (.dict [("type", .str "instant"),
          ("value", .str "2024-01-05T08:03:02.500000Z")]))
        ⟨Option.none, [] ++ [.objAttr 0 "created", .format 0, .fieldAttr 0 "as_dict"]⟩ :=
  ⟨by decide, by decide,
    truthy_as_dict_wraps sample_obj 0 created_instant (field_tag created_instant)
      ⟨Option.none, []⟩ "created" ⟨2024, 1, 5, 8, 3, 2, 500000⟩ (.str "instant")
      (by decide) rfl rfl (by decide)⟩

/-- C8, as stated, fails on an `as_dict` attribute that is `None`: the value is not truthy,
yet the dispatcher returns the mapping `{"type": None, "value": text}` and not the bare
text. -/
theorem as_dict_none_counterexample :
    present_truthy created_as_dict_none.as_dict = false ∧
    Step.value (_serialize_value sample_obj 0 (some "created") created_as_dict_none
        (field_tag created_as_dict_none) ⟨Option.none, []⟩) =
      some (some (.dict [("type", .none), ("value", .str "2024-01-05T08:03:02.500000Z")])) ∧
    Step.value (_serialize_value sample_obj 0 (some "created") created_as_dict_none
        (field_tag created_as_dict_none) ⟨Option.none, []⟩) ≠
      some (some (.str (_isoformat ⟨2024, 1, 5, 8, 3, 2, 500000⟩))) := by
  refine ⟨rfl, rfl, ?_⟩
  intro hf
  have he : Step.value (_serialize_value sample_obj 0 (some "created") created_as_dict_none
        (field_tag created_as_dict_none) ⟨Option.none, []⟩) =
      some (some (.dict [("type", .none), ("value", .str "2024-01-05T08:03:02.500000Z")])) :=
    rfl
  rw [he] at hf
  simp at hf

/-- C8, amended: on the timestamp fast path the formatted text is wrapped exactly when the
`as_dict` attribute is present and is not the `False` singleton: with `as_dict` absent or
`False` the dispatcher returns the bare text `_isoformat d`, with any other value `a`
(truthy or not) it returns the mapping `{"type": a, "value": _isoformat d}`. -/
theorem bare_iff_as_dict_absent_or_false (obj : PyObj) (i : Nat) (f : Field) (tag : CharPtr)
    (st : Interp) (n : String) (d : DateTime) (htag : is_timestamp tag = true)
    (hv : obj n = some (.datetime d)) :
    ((f.as_dict = Option.none ∨ f.as_dict = some (.bool false)) →
      Step.value (_serialize_value obj i (some n) f tag st) =
        some (some (.str (_isoformat d)))) ∧
    (∀ a, f.as_dict = some a → a ≠ .bool false →
      Step.value (_serialize_value obj i (some n) f tag st) =
        some (some (.dict [("type", a), ("value", .str (_isoformat d))]))) := by
  refine ⟨?_, ?_⟩
  · rintro (ha | ha)
    · rw [fast_bare_absent obj i n f tag st d htag hv ha]
      rfl
    · rw [fast_bare_false obj i n f tag st d htag hv ha]
      rfl
  · intro a ha hne
    rw [fast_wrapped obj i n f tag st d a htag hv ha hne]
    rfl

/-- The amended C8 on the field `created` with `as_dict = False`: the bare text. -/
theorem bare_iff_as_dict_absent_or_false_witness :
    is_timestamp (field_tag created_as_dict_false) = true ∧
    sample_obj "created" = some (.datetime ⟨2024, 1, 5, 8, 3, 2, 500000⟩) ∧
    created_as_dict_false.as_dict = some (.bool false) ∧
    Step.value (_serialize_value sample_obj 0 (some "created") created_as_dict_false
        (field_tag created_as_dict_false) ⟨Option.none, []⟩) =
      some (some (.str "2024-01-05T08:03:02.500000Z")) :=
  ⟨by decide, rfl, rfl,
    (bare_iff_as_dict_absent_or_false sample_obj 0 created_as_dict_false
      (field_tag created_as_dict_false) ⟨Option.none, []⟩ "created"
      ⟨2024, 1, 5, 8, 3, 2, 500000⟩ (by decide) rfl).1 (Or.inr rfl)⟩

/-! ## C9: a missing attribute on the fast path -/

/-- C9: when the fields before it serialize successfully, a timestamp-tagged field let
through by the write-only test whose `field_name` is not an attribute of the object makes
`serialize` fail with `TypeError("Invalid fields definition, missing field")` and return no
mapping; the trace is the trace of the earlier fields followed by the reads on that field,
so no event belongs to a later field, whatever the later fields are. -/
theorem missing_attribute_aborts (obj : PyObj) (pre : List Field) (f : Field)
    (post : List Field) (d1 : Dict) (tr1 : List Event) (n : String)
    (hpre : serialize obj pre = (.ok d1, tr1))
    (hw : f.write_only = Option.none ∨ f.write_only = some (.bool false))
    (htag : is_timestamp (field_tag f) = true)
    (hn : f.field_name = some n) (hv : obj n = Option.none) :
    serialize obj (pre ++ f :: post) =
      (.raised missingFieldError,
        tr1 ++ attr_reads pre.length f ++ [.objAttr pre.length n]) ∧
    ∀ e ∈ (serialize obj (pre ++ f :: post)).2, e.field ≤ pre.length := by
  have hl := (serialize_eq_ok obj pre d1 tr1).1 hpre
  have hd : dispatched f.write_only = true := (dispatched_iff _).2 hw
  have he : attr_err f = Option.none := by simp [attr_err, hn]
  have hf : serialize_field obj (0 + pre.length) f ⟨Option.none, tr1⟩ d1 =
      .next d1 ⟨some missingFieldError,
        tr1 ++ attr_reads pre.length f ++ [.objAttr pre.length n]⟩ := by
    rw [serialize_field_eq _ _ _ _ _ rfl]
    simp only [hd, if_true, Nat.zero_add]
    rw [hn, he, fast_missing obj _ n f _ _ htag hv]
  have hall : serialize obj (pre ++ f :: post) =
      (.raised missingFieldError,
        tr1 ++ attr_reads pre.length f ++ [.objAttr pre.length n]) := by
    unfold serialize
    rw [serialize_loop_append, hl]
    simp only
    rw [serialize_loop_cons _ _ _ _ _ _ rfl, hf]
    simp only
    rw [serialize_loop_err _ _ _ _ _ missingFieldError rfl]
  refine ⟨hall, ?_⟩
  rw [hall]
  intro e hm
  simp only [List.mem_append, List.mem_singleton] at hm
  rcases hm with (hm | hm) | hm
  · have ht := serialize_loop_trace obj pre 0 ⟨Option.none, []⟩ [] e (by rw [hl]; exact hm)
    rcases ht with ht | ⟨_, g, hg, _⟩
    · simp at ht
    · have := (List.getElem?_eq_some.1 hg).1
      omega
  · exact le_of_eq (attr_reads_events _ f e hm).1
  · rw [hm]
    exact le_refl _

/-- C9 on the sequence `title`, `missing`, `created`: the call fails at `missing` and the
trace ends there. -/
theorem missing_attribute_aborts_witness :
    serialize sample_obj [title_field] =
      (.ok [("title", .str "hello")],
        [.fieldAttr 0 "field_name", .fieldAttr 0 "type_name", .fieldAttr 0 "write_only",
         .getAttribute 0, .toRepresentation 0 (.str "hello")]) ∧
    is_timestamp (field_tag missing_field) = true ∧
    sample_obj "missing" = Option.none ∧
    serialize sample_obj ([title_field] ++ missing_field :: [created_field]) =
      (.raised ⟨"TypeError", "Invalid fields definition, missing field"⟩,
        [.fieldAttr 0 "field_name", .fieldAttr 0 "type_name", .fieldAttr 0 "write_only",
         .getAttribute 0, .toRepresentation 0 (.str "hello")] ++
        attr_reads [title_field].length missing_field ++
        [.objAttr [title_field].length "missing"]) :=
  ⟨rfl, by decide, rfl,
    (missing_attribute_aborts sample_obj [title_field] missing_field [created_field] _ _
      "missing" rfl (Or.inl rfl) (by decide) rfl rfl).1⟩

/-! ## C10: the generic fallback -/

/-- C10, as stated, fails on a generic field whose `write_only` is the empty text: the
field is not write-only (the value is not truthy) and its `get_attribute` would return
`"hello"`, yet line 63 skips it: `get_attribute` and `to_representation` are not called and
the mapping has no entry `title`. -/
theorem generic_write_only_empty_counterexample :
    present_truthy title_write_only_empty.write_only = false ∧
    is_generic (field_tag title_write_only_empty) = true ∧
    Step.value (_serialize_value sample_obj 0 (some "title") title_write_only_empty
      (field_tag title_write_only_empty) ⟨Option.none, []⟩) = some (some (.str "hello")) ∧
    serialize sample_obj [title_write_only_empty] =
      (.ok [], [.fieldAttr 0 "field_name", .fieldAttr 0 "type_name",
        .fieldAttr 0 "write_only"]) ∧
    result_get (serialize sample_obj [title_write_only_empty]) "title" = some Option.none :=
  ⟨rfl, by decide, rfl, rfl, rfl⟩

/-- C10, amended: for a named field whose `write_only` is absent or is exactly `False` and
whose tag is a C string other than the timestamp marker: when `get_attribute(obj)` returns `None` the entry is `None` and
the field adds the `get_attribute` call only; when it returns another value `r` and
`to_representation(r)` returns `v`, the entry is `v` and the field adds one `get_attribute`
call followed by one `to_representation` call on `r`. Each holds in the loop body from any
state with no exception pending, in the call on that field alone and in the result of any
successful call unless a later field let through has the same name. -/
theorem generic_field_delegates (obj : PyObj) (f : Field) (n : String)
    (hw : f.write_only = Option.none ∨ f.write_only = some (.bool false))
    (htag : is_generic (field_tag f) = true) (hn : f.field_name = some n) :
    (f.get_attribute obj = .ok .none →
      (∀ (i : Nat) (st : Interp) (dict : Dict), st.err = Option.none →
        serialize_field obj i f st dict =
          .next (PyDict_SetItem dict n .none)
            ⟨Option.none, st.trace ++ (attr_reads i f ++ [.getAttribute i])⟩) ∧
      serialize obj [f] = (.ok [(n, .none)], attr_reads 0 f ++ [.getAttribute 0]) ∧
      (∀ (pre post : List Field) (m : Dict) (tr : List Event),
        serialize obj (pre ++ f :: post) = (.ok m, tr) →
        (∀ g ∈ post, dispatched g.write_only = true → g.field_name ≠ some n) →
        Dict.get m n = some .none)) ∧
    (∀ r v, f.get_attribute obj = .ok r → r ≠ .none → f.to_representation r = .ok v →
      (∀ (i : Nat) (st : Interp) (dict : Dict), st.err = Option.none →
        serialize_field obj i f st dict =
          .next (PyDict_SetItem dict n v)
            ⟨Option.none, st.trace ++ (attr_reads i f ++
              [.getAttribute i, .toRepresentation i r])⟩) ∧
      serialize obj [f] = (.ok [(n, v)],
        attr_reads 0 f ++ [.getAttribute 0, .toRepresentation 0 r]) ∧
      (∀ (pre post : List Field) (m : Dict) (tr : List Event),
        serialize obj (pre ++ f :: post) = (.ok m, tr) →
        (∀ g ∈ post, dispatched g.write_only = true → g.field_name ≠ some n) →
        Dict.get m n = some v)) := by
  refine ⟨?_, ?_⟩
  · intro hg
    have step : ∀ (i : Nat) (st : Interp) (dict : Dict), st.err = Option.none →
        serialize_field obj i f st dict =
          .next (PyDict_SetItem dict n .none)
            ⟨Option.none, st.trace ++ (attr_reads i f ++ [.getAttribute i])⟩ := by
      intro i st dict hs
      rw [← List.append_assoc]
      exact serialize_field_value obj i f st dict n _ _ hs hw hn
        (generic_none obj i (some n) f _ _ htag rfl hg)
    obtain ⟨h1, h2⟩ := field_entry obj f n _ _ step
    exact ⟨step, h1, h2⟩
  · intro r v hg hr ht
    have step : ∀ (i : Nat) (st : Interp) (dict : Dict), st.err = Option.none →
        serialize_field obj i f st dict =
          .next (PyDict_SetItem dict n v)
            ⟨Option.none, st.trace ++ (attr_reads i f ++
              [.getAttribute i, .toRepresentation i r])⟩ := by
      intro i st dict hs
      rw [← List.append_assoc]
      exact serialize_field_value obj i f st dict n _ _ hs hw hn
        (generic_value obj i (some n) f _ _ r v htag rfl hg hr ht)
    obtain ⟨h1, h2⟩ := field_entry obj f n _ _ step
    exact ⟨step, h1, h2⟩

/-- The amended C10 on the field `title`, whose `get_attribute` returns `"hello"`, and on the plain
field `deleted`, whose `get_attribute` returns `None`. -/
theorem generic_field_delegates_witness :
    is_generic (field_tag title_field) = true ∧
    serialize sample_obj [title_field] =
      (.ok [("title", .str "hello")],
        attr_reads 0 title_field ++ [.getAttribute 0, .toRepresentation 0 (.str "hello")]) ∧
    is_generic (field_tag deleted_plain) = true ∧
    serialize sample_obj [deleted_plain] =
      (.ok [("deleted", .none)], attr_reads 0 deleted_plain ++ [.getAttribute 0]) :=
  ⟨by decide,
    ((generic_field_delegates sample_obj title_field "title"
      (Or.inl rfl) (by decide) rfl).2 (.str "hello") (.str "hello") rfl (by simp) rfl).2.1,
    by decide,
    ((generic_field_delegates sample_obj deleted_plain "deleted"
      (Or.inl rfl) (by decide) rfl).1 rfl).2.1⟩

/-! ## C11: failures of the capabilities -/

theorem generic_repr_error (obj : PyObj) (i : Nat) (fn : Option String) (f : Field)
    (tag : CharPtr) (st : Interp) (r : PyVal) (e : PyErr) (htag : is_generic tag = true)
    (hst : st.err = Option.none) (hg : f.get_attribute obj = .ok r) (hr : r ≠ .none)
    (ht : f.to_representation r = .error e) :
    _serialize_value obj i fn f tag st =
      .next Option.none ⟨some e, st.trace ++ [.getAttribute i, .toRepresentation i r]⟩ := by
  rcases tag with _ | b | _ <;> simp [is_generic] at htag <;>
    rcases r with _ | _ | _ | _ | _ | _ | _ | _ <;>
    first
      | exact absurd rfl hr
      | simp [_serialize_value, htag, hg, ht, hst, Interp.log]

theorem generic_get_error (obj : PyObj) (i : Nat) (fn : Option String) (f : Field)
    (tag : CharPtr) (st : Interp) (e : PyErr) (htag : is_generic tag = true)
    (hg : f.get_attribute obj = .error e) :
    _serialize_value obj i fn f tag st = .undefined (st.trace ++ [.getAttribute i]) := by
  rcases tag with _ | b | _ <;> simp [is_generic] at htag <;>
    rcases hs : st.err with _ | e0 <;>
    simp [_serialize_value, htag, hg, hs, Interp.log]

/-- A failure of `to_representation` on the generic fallback, after fields that serialize
successfully, is the failure of the call; no later field adds an event. -/
theorem to_representation_failure_propagates (obj : PyObj) (pre : List Field) (f : Field)
    (post : List Field) (d1 : Dict) (tr1 : List Event) (n : String) (r : PyVal) (e : PyErr)
    (hpre : serialize obj pre = (.ok d1, tr1))
    (hw : f.write_only = Option.none ∨ f.write_only = some (.bool false))
    (htag : is_generic (field_tag f) = true) (hn : f.field_name = some n)
    (hg : f.get_attribute obj = .ok r) (hr : r ≠ .none)
    (ht : f.to_representation r = .error e) :
    serialize obj (pre ++ f :: post) =
      (.raised e, tr1 ++ attr_reads pre.length f ++
        [.getAttribute pre.length, .toRepresentation pre.length r]) := by
  have hl := (serialize_eq_ok obj pre d1 tr1).1 hpre
  have hd : dispatched f.write_only = true := (dispatched_iff _).2 hw
  have he : attr_err f = Option.none := by simp [attr_err, hn]
  have hf : serialize_field obj (0 + pre.length) f ⟨Option.none, tr1⟩ d1 =
      .next d1 ⟨some e, tr1 ++ attr_reads pre.length f ++
        [.getAttribute pre.length, .toRepresentation pre.length r]⟩ := by
    rw [serialize_field_eq _ _ _ _ _ rfl]
    simp only [hd, if_true, Nat.zero_add]
    rw [hn, he, generic_repr_error obj _ _ f _ _ r e htag rfl hg hr ht]
  unfold serialize
  rw [serialize_loop_append, hl]
  simp only
  rw [serialize_loop_cons _ _ _ _ _ _ rfl, hf]
  simp only
  rw [serialize_loop_err _ _ _ _ _ e rfl]

/-- A failure of `get_attribute` on the generic fallback, after fields that serialize
successfully, ends defined behaviour right after the `get_attribute` call. -/
theorem get_attribute_failure_undefined (obj : PyObj) (pre : List Field) (f : Field)
    (post : List Field) (d1 : Dict) (tr1 : List Event) (e : PyErr)
    (hpre : serialize obj pre = (.ok d1, tr1))
    (hw : f.write_only = Option.none ∨ f.write_only = some (.bool false))
    (htag : is_generic (field_tag f) = true)
    (hg : f.get_attribute obj = .error e) :
    serialize obj (pre ++ f :: post) =
      (.undefined, tr1 ++ attr_reads pre.length f ++ [.getAttribute pre.length]) := by
  have hl := (serialize_eq_ok obj pre d1 tr1).1 hpre
  have hd : dispatched f.write_only = true := (dispatched_iff _).2 hw
  have hf : serialize_field obj (0 + pre.length) f ⟨Option.none, tr1⟩ d1 =
      .undefined (tr1 ++ attr_reads pre.length f ++ [.getAttribute pre.length]) := by
    rw [serialize_field_eq _ _ _ _ _ rfl]
    simp only [hd, if_true, Nat.zero_add]
    rw [generic_get_error obj _ _ f _ _ e htag hg]
  unfold serialize
  rw [serialize_loop_append, hl]
  simp only
  rw [serialize_loop_cons _ _ _ _ _ _ rfl, hf]

/-- C11 fails on the code when `get_attribute` is the capability that raises: on the
sequence `title`, `title` with a raising `get_attribute`, the `NULL` it gives reaches
`Py_DECREF` on line 120 and the call leaves defined behaviour instead of failing with the
raised `ValueError`; `to_representation` is not called for that field. A raising
`to_representation` does make the call fail with exactly its failure. -/
theorem get_attribute_failure_at_title :
    is_generic (field_tag title_failing_get) = true ∧
    serialize sample_obj [title_field, title_failing_get] =
      (.undefined,
        [.fieldAttr 0 "field_name", .fieldAttr 0 "type_name", .fieldAttr 0 "write_only",
         .getAttribute 0, .toRepresentation 0 (.str "hello"),
         .fieldAttr 1 "field_name", .fieldAttr 1 "type_name", .fieldAttr 1 "write_only",
         .getAttribute 1]) ∧
    serialize sample_obj [title_field, title_failing_repr, created_field] =
      (.raised sample_error,
        [.fieldAttr 0 "field_name", .fieldAttr 0 "type_name", .fieldAttr 0 "write_only",
         .getAttribute 0, .toRepresentation 0 (.str "hello"),
         .fieldAttr 1 "field_name", .fieldAttr 1 "type_name", .fieldAttr 1 "write_only",
         .getAttribute 1, .toRepresentation 1 (.str "hello")]) :=
  ⟨by decide, rfl, rfl⟩

/-! ## C12: a descriptor without `field_name` -/

/-- C12 fails on the code: a descriptor with no `field_name` and no `type_name` whose
`write_only` is `True` is skipped after line 40 has cleared the failed lookup, and the call
returns the empty mapping. With `type_name` present and `write_only` absent the failed
lookup is cleared on line 60 and line 66 inserts under a `NULL` key; only with both
attributes present and the field skipped does the call fail with the `AttributeError`. -/
theorem missing_field_name_outcomes :
    (nameless_field Option.none (some (.bool true))).field_name = Option.none ∧
    serialize sample_obj [nameless_field Option.none (some (.bool true))] =
      (.ok [], [.fieldAttr 0 "field_name", .fieldAttr 0 "type_name", .fieldAttr 0 "__class__",
        .fieldAttr 0 "__name__", .fieldAttr 0 "write_only"]) ∧
    serialize sample_obj [nameless_field (some (.str "CharField")) Option.none] =
      (.undefined, [.fieldAttr 0 "field_name", .fieldAttr 0 "type_name",
        .fieldAttr 0 "write_only", .getAttribute 0, .toRepresentation 0 (.str "x")]) ∧
    serialize sample_obj [nameless_field (some (.str "CharField")) (some (.bool true))] =
      (.raised (attributeError "field_name"),
        [.fieldAttr 0 "field_name", .fieldAttr 0 "type_name", .fieldAttr 0 "write_only"]) :=
  ⟨rfl, rfl, rfl, rfl⟩

/-! ## C13, C14: the type tag -/

theorem fast_not_datetime (obj : PyObj) (i : Nat) (n : String) (f : Field) (tag : CharPtr)
    (st : Interp) (v : PyVal) (htag : is_timestamp tag = true) (hv : obj n = some v)
    (hnone : v ≠ .none) (hdt : ∀ d, v ≠ .datetime d) :
    _serialize_value obj i (some n) f tag st =
      .undefined (st.trace ++ [.objAttr i n, .format i]) := by
  rcases tag with _ | b | _ <;> simp [is_timestamp] at htag
  rcases v with _ | _ | _ | _ | _ | _ | d | _
  case none => exact absurd rfl hnone
  case datetime => exact absurd rfl (hdt d)
  all_goals simp [_serialize_value, htag, hv, Interp.log]

/-- On the fast path the dispatcher first reads the attribute on the object; what it adds
after that is the formatter and the read of `as_dict`. -/
theorem fast_path_events (obj : PyObj) (i : Nat) (n : String) (f : Field) (tag : CharPtr)
    (st : Interp) (htag : is_timestamp tag = true) :
    ∃ rest, (_serialize_value obj i (some n) f tag st).trace =
        st.trace ++ .objAttr i n :: rest ∧
      ∀ e ∈ rest, e = .format i ∨ e = .fieldAttr i "as_dict" := by
  rcases hv : obj n with _ | v
  · rw [fast_missing obj i n f tag st htag hv]
    exact ⟨[], rfl, by simp⟩
  · by_cases hnone : v = .none
    · subst hnone
      rw [fast_none obj i n f tag st htag hv]
      exact ⟨[], rfl, by simp⟩
    · by_cases hdt : ∃ d, v = .datetime d
      · obtain ⟨d, rfl⟩ := hdt
        rcases ha : f.as_dict with _ | a
        · rw [fast_bare_absent obj i n f tag st d htag hv ha]
          exact ⟨[.format i, .fieldAttr i "as_dict"], rfl, by simp⟩
        · by_cases hf : a = .bool false
          · subst hf
            rw [fast_bare_false obj i n f tag st d htag hv ha]
            exact ⟨[.format i, .fieldAttr i "as_dict"], rfl, by simp⟩
          · rw [fast_wrapped obj i n f tag st d a htag hv ha hf]
            exact ⟨[.format i, .fieldAttr i "as_dict"], rfl, by simp⟩
      · rw [fast_not_datetime obj i n f tag st v htag hv hnone
          (fun d hd => hdt ⟨d, hd⟩)]
        exact ⟨[.format i], rfl, by simp⟩

/-- On the generic fallback the dispatcher first calls `get_attribute`; what it adds after
that is a call of `to_representation`. -/
theorem generic_path_events (obj : PyObj) (i : Nat) (fn : Option String) (f : Field)
    (tag : CharPtr) (st : Interp) (htag : is_generic tag = true) :
    ∃ rest, (_serialize_value obj i fn f tag st).trace =
        st.trace ++ .getAttribute i :: rest ∧
      ∀ e ∈ rest, ∃ v, e = .toRepresentation i v := by
  rcases hs : st.err with _ | e0
  · rcases hg : f.get_attribute obj with e | r
    · rw [generic_get_error obj i fn f tag st e htag hg]
      exact ⟨[], rfl, by simp⟩
    · by_cases hr : r = .none
      · subst hr
        rw [generic_none obj i fn f tag st htag hs hg]
        exact ⟨[], rfl, by simp⟩
      · rcases ht : f.to_representation r with e | v
        · rw [generic_repr_error obj i fn f tag st r e htag hs hg hr ht]
          exact ⟨[.toRepresentation i r], rfl, by simp⟩
        · rw [generic_value obj i fn f tag st r v htag hs hg hr ht]
          exact ⟨[.toRepresentation i r], rfl, by simp⟩
  · refine ⟨[], ?_, by simp⟩
    rcases tag with _ | b | _ <;> simp [is_generic] at htag <;>
      simp [_serialize_value, htag, hs, Interp.log, Step.trace]

theorem generic_of_not_timestamp (b : List Nat) :
    is_generic (.buffer b) = !is_timestamp (.buffer b) := rfl

/-- C14, as stated, fails on a tag text that goes on after the marker with a NUL
character: `"DateTimeField\0abc"` is not equal to `"DateTimeField"`, yet `strcmp` stops at
the NUL and the dispatcher takes the fast path: it reads the attribute on the object and
formats it, and does not call the capabilities, which would raise. -/
theorem nul_extension_counterexample :
    "DateTimeField\x00abc" ≠ "DateTimeField" ∧
    is_timestamp (type_name_c (.str "DateTimeField\x00abc")) = true ∧
    created_failing_caps.get_attribute sample_obj = .error sample_error ∧
    _serialize_value sample_obj 0 (some "created") created_failing_caps
        (type_name_c (.str "DateTimeField\x00abc")) ⟨Option.none, []⟩ =
      .next (some (.str "2024-01-05T08:03:02.500000Z"))
        ⟨Option.none, [.objAttr 0 "created", .format 0, .fieldAttr 0 "as_dict"]⟩ :=
  ⟨by decide, by decide, rfl, rfl⟩

/-- C14, amended: the dispatcher takes the timestamp fast path exactly when the tag text,
cut at its first NUL character, is `DateTimeField`. Every other tag text (another case, a
proper beginning of the marker, the marker followed by characters other than NUL, the
other declared names) and the absence of a tag take the generic fallback. On the fast path
the first thing the dispatcher adds to the trace is the read of the attribute on the
object, and the capabilities are not called; on the generic fallback it is the call of
`get_attribute`. -/
theorem fast_path_iff_marker_before_nul (obj : PyObj) (i : Nat) (f : Field) (st : Interp) :
    (∀ s : String, is_timestamp (type_name_c (.str s)) = true ↔
      s.toList.takeWhile (fun c => c != Char.ofNat 0) = "DateTimeField".toList) ∧
    (∀ s : String, is_generic (type_name_c (.str s)) = true ↔
      s.toList.takeWhile (fun c => c != Char.ofNat 0) ≠ "DateTimeField".toList) ∧
    is_generic .null = true ∧
    (∀ (tag : CharPtr) (n : String), is_timestamp tag = true →
      ∃ rest, (_serialize_value obj i (some n) f tag st).trace =
          st.trace ++ .objAttr i n :: rest ∧
        ∀ e ∈ rest, e = .format i ∨ e = .fieldAttr i "as_dict") ∧
    (∀ (tag : CharPtr) (fn : Option String), is_generic tag = true →
      ∃ rest, (_serialize_value obj i fn f tag st).trace =
          st.trace ++ .getAttribute i :: rest ∧
        ∀ e ∈ rest, ∃ v, e = .toRepresentation i v) ∧
    (is_generic (type_name_c (.str "datetimefield")) = true ∧
      is_generic (type_name_c (.str "DateTime")) = true ∧
      is_generic (type_name_c (.str "DateTimeFieldX")) = true ∧
      is_generic (type_name_c (.str "ReferenceField")) = true ∧
      is_generic (type_name_c (.str "FileField")) = true ∧
      is_generic (type_name_c (.str "ChoiceField")) = true ∧
      is_generic (type_name_c (.str "HyperlinkedField")) = true) := by
  have hts : ∀ s : String, is_timestamp (type_name_c (.str s)) = true ↔
      s.toList.takeWhile (fun c => c != Char.ofNat 0) = "DateTimeField".toList := by
    intro s
    simp only [type_name_c, is_timestamp]
    exact strcmp_marker_iff s
  refine ⟨hts, ?_, rfl, ?_, ?_, ?_⟩
  · intro s
    rw [ne_eq, ← hts s]
    simp only [type_name_c, generic_of_not_timestamp]
    rcases is_timestamp (.buffer (PyUnicode_AsUTF8String s)) with _ | _ <;> simp
  · intro tag n htag
    exact fast_path_events obj i n f tag st htag
  · intro tag fn htag
    exact generic_path_events obj i fn f tag st htag
  · decide

/-- The amended C14 on the field `title` under the tag `CharField` (generic fallback) and
on the field `created` under the tag `DateTimeField` (fast path). -/
theorem fast_path_iff_marker_before_nul_witness :
    is_generic (type_name_c (.str "CharField")) = true ∧
    (∃ rest, (_serialize_value sample_obj 0 (some "title") title_field
          (type_name_c (.str "CharField")) ⟨Option.none, []⟩).trace =
        [] ++ .getAttribute 0 :: rest ∧ ∀ e ∈ rest, ∃ v, e = .toRepresentation 0 v) ∧
    is_timestamp (type_name_c (.str "DateTimeField")) = true ∧
    (∃ rest, (_serialize_value sample_obj 0 (some "created") created_field
          (type_name_c (.str "DateTimeField")) ⟨Option.none, []⟩).trace =
        [] ++ .objAttr 0 "created" :: rest ∧
      ∀ e ∈ rest, e = .format 0 ∨ e = .fieldAttr 0 "as_dict") :=
  ⟨by decide,
    (fast_path_iff_marker_before_nul sample_obj 0 title_field ⟨Option.none, []⟩).2.2.2.2.1
      _ _ (by decide),
    by decide,
    (fast_path_iff_marker_before_nul sample_obj 0 created_field ⟨Option.none, []⟩).2.2.2.1
      _ _ (by decide)⟩

/-! ## C15: the formatter on other values -/

/-- C15, as stated, fails on a text, a number and a date: `isoformat` does not fail with an
exception on them, it reads them through the datetime layout; the same happens on the
fast path for the field `title`, whose value is a text. -/
theorem isoformat_unchecked_counterexample :
    isoformat [.str "hello"] = .undefined ∧
    isoformat [.int 5] = .undefined ∧
    isoformat [.date 2024 1 5] = .undefined ∧
    is_timestamp (field_tag title_as_timestamp) = true ∧
    sample_obj "title" = some (.str "hello") ∧
    serialize sample_obj [title_as_timestamp] =
      (.undefined, [.fieldAttr 0 "field_name", .fieldAttr 0 "type_name",
        .fieldAttr 0 "write_only", .objAttr 0 "title", .format 0]) :=
  ⟨rfl, rfl, rfl, by decide, rfl, rfl⟩

/-- C15, amended: the formatter does not check its argument and never fails with an
exception on a value: on a datetime it returns the text; on any other value the entry
point, and the fast path on a value other than `None`, read the object through the
datetime layout, which the code does not define. -/
theorem isoformat_has_no_check (v : PyVal) :
    (∀ e, isoformat [v] ≠ .raised e) ∧
    (∀ d, v = .datetime d → isoformat [v] = .ok (_isoformat d)) ∧
    ((∀ d, v ≠ .datetime d) → isoformat [v] = .undefined) ∧
    (∀ (obj : PyObj) (i : Nat) (n : String) (f : Field) (tag : CharPtr) (st : Interp),
      is_timestamp tag = true → obj n = some v → v ≠ .none → (∀ d, v ≠ .datetime d) →
      _serialize_value obj i (some n) f tag st =
        .undefined (st.trace ++ [.objAttr i n, .format i])) := by
  refine ⟨?_, ?_, ?_, ?_⟩
  · intro e
    rcases v with _ | _ | _ | _ | _ | _ | _ | _ <;> simp [isoformat]
  · intro d hd
    subst hd
    rfl
  · intro hd
    rcases v with _ | _ | _ | _ | _ | _ | d | _
    case datetime => exact absurd rfl (hd d)
    all_goals rfl
  · intro obj i n f tag st htag hv hnone hdt
    exact fast_not_datetime obj i n f tag st v htag hv hnone hdt

/-- The amended C15 on the datetime of the sample object and on a date. -/
theorem isoformat_has_no_check_witness :
    isoformat [.datetime ⟨2024, 1, 5, 8, 3, 2, 500000⟩] = .ok "2024-01-05T08:03:02.500000Z" ∧
    isoformat [.date 2024 1 5] = .undefined :=
  ⟨(isoformat_has_no_check (.datetime ⟨2024, 1, 5, 8, 3, 2, 500000⟩)).2.1 _ rfl,
    (isoformat_has_no_check (.date 2024 1 5)).2.2.1 (fun d h => by cases h)⟩

/-! ## C16: the fast path and the capabilities -/

theorem digit_value_digitChar (m : Nat) (h : m < 10) : digit_value (Nat.digitChar m) = m := by
  interval_cases m <;> rfl

theorem digits_value_snoc (l : List Char) (c : Char) :
    digits_value (l ++ [c]) = digits_value l * 10 + digit_value c := by
  simp [digits_value, List.foldl_append]

/-- Reading back the decimal digits of a number gives the number. -/
theorem digits_value_toDigits (n : Nat) : digits_value (Nat.toDigits 10 n) = n := by
  induction n using Nat.strong_induction_on with
  | _ n ih =>
    by_cases h : n < 10
    · rw [toDigits_small n h]
      simp [digits_value, digit_value_digitChar n h]
    · rw [toDigits_step n (by omega), digits_value_snoc, ih (n / 10) (by omega),
        digit_value_digitChar _ (Nat.mod_lt _ (by decide))]
      omega

theorem digits_value_zeros (k : Nat) (l : List Char) :
    digits_value (List.replicate k '0' ++ l) = digits_value l := by
  induction k with
  | zero => simp
  | succ k ih =>
    simp only [digits_value, List.replicate_succ, List.cons_append, List.foldl_cons] at ih ⊢
    exact ih

theorem digits_value_fmt_0d (w n : Nat) : digits_value (fmt_0d w n) = n := by
  rw [fmt_0d, digits_value_zeros, digits_value_toDigits]

theorem takeWhile_digits (ds : List Char) (c : Char) (rest : List Char)
    (hd : ∀ x ∈ ds, x.isDigit = true) (hc : c.isDigit = false) :
    (ds ++ c :: rest).takeWhile Char.isDigit = ds := by
  induction ds with
  | nil => simp [List.takeWhile, hc]
  | cons x xs ih =>
    have hx := hd x (List.mem_cons_self _ _)
    rw [List.cons_append, List.takeWhile_cons_of_pos hx,
      ih (fun y hy => hd y (List.mem_cons_of_mem _ hy))]

theorem dropWhile_digits (ds : List Char) (c : Char) (rest : List Char)
    (hd : ∀ x ∈ ds, x.isDigit = true) (hc : c.isDigit = false) :
    (ds ++ c :: rest).dropWhile Char.isDigit = c :: rest := by
  induction ds with
  | nil => simp [List.dropWhile, hc]
  | cons x xs ih =>
    have hx := hd x (List.mem_cons_self _ _)
    rw [List.cons_append, List.dropWhile_cons_of_pos hx,
      ih (fun y hy => hd y (List.mem_cons_of_mem _ hy))]

/-- Reading a run of digits that ends at a character that is not a digit. -/
theorem read_number_digits (ds : List Char) (c : Char) (rest : List Char)
    (hd : ∀ x ∈ ds, x.isDigit = true) (hc : c.isDigit = false) :
    read_number (ds ++ c :: rest) = (digits_value ds, c :: rest) := by
  simp only [read_number, takeWhile_digits ds c rest hd hc, dropWhile_digits ds c rest hd hc]

/-- Splitting the text of a value at the separators gives the value back. -/
theorem parse_isoformat_roundtrip (d : DateTime) : parse_isoformat (_isoformat d) = some d := by
  have e : (_isoformat d).data =
      fmt_d d.year ++ '-' :: (fmt_0d 2 d.month ++ '-' :: (fmt_0d 2 d.day ++ 'T' ::
        (fmt_0d 2 d.hour ++ ':' :: (fmt_0d 2 d.minute ++ ':' :: (fmt_0d 2 d.second ++ '.' ::
          (fmt_0d 6 d.microsecond ++ 'Z' :: [])))))) := by
    simp [_isoformat]
  simp only [parse_isoformat, e]
  rw [read_number_digits (fmt_d d.year) '-' _ (toDigits_isDigit _) (by decide)]
  simp only [expect_char, if_true, Option.bind]
  rw [read_number_digits _ '-' _ (fmt_0d_isDigit _ _) (by decide)]
  simp only [expect_char, if_true, Option.bind]
  rw [read_number_digits _ 'T' _ (fmt_0d_isDigit _ _) (by decide)]
  simp only [expect_char, if_true, Option.bind]
  rw [read_number_digits _ ':' _ (fmt_0d_isDigit _ _) (by decide)]
  simp only [expect_char, if_true, Option.bind]
  rw [read_number_digits _ ':' _ (fmt_0d_isDigit _ _) (by decide)]
  simp only [expect_char, if_true, Option.bind]
  rw [read_number_digits _ '.' _ (fmt_0d_isDigit _ _) (by decide)]
  simp only [expect_char, if_true, Option.bind]
  rw [read_number_digits _ 'Z' _ (fmt_0d_isDigit _ _) (by decide)]
  simp only [expect_char, if_true, Option.bind, fmt_d, digits_value_toDigits,
    digits_value_fmt_0d]

/-- C17: two valid calendar-time values with the same text are the same value, and the
seven components of a valid value are read back from its text by splitting it at the
separators. -/
theorem isoformat_injective (d1 d2 : DateTime) (_hv1 : d1.valid) (_hv2 : d2.valid)
    (h : _isoformat d1 = _isoformat d2) :
    d1 = d2 ∧ parse_isoformat (_isoformat d1) = some d1 := by
  refine ⟨?_, parse_isoformat_roundtrip d1⟩
  have e1 := parse_isoformat_roundtrip d1
  have e2 := parse_isoformat_roundtrip d2
  rw [h, e2] at e1
  exact (Option.some.inj e1).symm

/-- C17 on the value of the year 999 and on the text of the specification's example. -/
theorem isoformat_injective_witness :
    year_999.valid ∧ _isoformat year_999 = _isoformat ⟨999, 12, 31, 23, 59, 59, 999999⟩ ∧
    (year_999 = ⟨999, 12, 31, 23, 59, 59, 999999⟩ ∧
      parse_isoformat (_isoformat year_999) = some year_999) ∧
    parse_isoformat "2024-01-05T08:03:02.500000Z" = some ⟨2024, 1, 5, 8, 3, 2, 500000⟩ :=
  ⟨by decide, rfl,
    isoformat_injective year_999 ⟨999, 12, 31, 23, 59, 59, 999999⟩ (by decide) (by decide) rfl,
    by decide⟩

/-! ## C18, C19: entries and names -/

theorem setItem_new (d : Dict) (k : String) (v : PyVal) (h : k ∉ keys d) :
    PyDict_SetItem d k v = d ++ [(k, v)] := by
  induction d with
  | nil => rfl
  | cons p rest ih =>
    obtain ⟨k', v'⟩ := p
    have hk : ¬ k' = k := by
      intro he
      apply h
      simp [keys, he]
    have hr : k ∉ keys rest := by
      intro hm
      apply h
      simp only [keys, List.map_cons, List.mem_cons] at hm ⊢
      exact Or.inr hm
    simp [PyDict_SetItem, hk, ih hr]

/-- A field for which the dispatcher yields a value yields it at every position and after
every trace, as long as no exception is pending. -/
theorem dispatch_value_run (obj : PyObj) (f : Field) (n : String) (v : PyVal) (i : Nat)
    (st : Interp) (hn : f.field_name = some n) (hv : dispatch_value obj f = some v)
    (hst : st.err = Option.none) :
    ∃ s, _serialize_value obj i (some n) f (field_tag f) st = .next (some v) s ∧
      s.err = Option.none := by
  have hf := serialize_value_forget obj 0 i f.field_name f (field_tag f) ⟨Option.none, []⟩ st
    (by simp [hst])
  unfold dispatch_value at hv
  rw [hn] at hf hv
  rcases hr : _serialize_value obj i (some n) f (field_tag f) st with ⟨a, s⟩ | t
  · rw [hr] at hf
    rw [hf] at hv
    simp only [Step.forget] at hv
    rcases a with _ | a
    · simp at hv
    · rcases hs : s.err with _ | e
      · rw [hs] at hv
        simp only [Option.some.injEq] at hv
        exact ⟨s, by rw [hv], hs⟩
      · rw [hs] at hv
        simp at hv
  · rw [hr] at hf
    rw [hf] at hv
    simp [Step.forget] at hv

/-- A run of the dispatcher that returns a value and leaves no exception pending gives
the value of the field. -/
theorem dispatch_value_of_run (obj : PyObj) (f : Field) (n : String) (v : PyVal) (i : Nat)
    (st s : Interp) (hn : f.field_name = some n) (hst : st.err = Option.none)
    (hr : _serialize_value obj i (some n) f (field_tag f) st = .next (some v) s)
    (hs : s.err = Option.none) :
    dispatch_value obj f = some v := by
  have hf := serialize_value_forget obj 0 i f.field_name f (field_tag f) ⟨Option.none, []⟩ st
    (by simp [hst])
  unfold dispatch_value
  rw [hn] at hf ⊢
  rw [hf, hr]
  simp [Step.forget, hs]

theorem field_entry_of_dispatched (obj : PyObj) (f : Field) (n : String) (v : PyVal)
    (hd : dispatched f.write_only = true) (hn : f.field_name = some n)
    (hv : dispatch_value obj f = some v) : field_entry_of obj f = some (n, v) := by
  simp [field_entry_of, hd, hn, hv]

theorem field_entry_of_skipped (obj : PyObj) (f : Field)
    (hd : dispatched f.write_only = false) : field_entry_of obj f = Option.none := by
  simp [field_entry_of, hd]

/-- The loop on fields with pairwise distinct names that are new to the mapping, whose
`write_only` is absent, `False` or `True` and whose dispatch yields a value: every field let
through appends its entry. -/
theorem serialize_loop_distinct (obj : PyObj) (fields : List Field) :
    ∀ (i : Nat) (st : Interp) (dict : Dict), st.err = Option.none →
    (∀ f ∈ fields, ∃ n, f.field_name = some n ∧ n ∉ keys dict) →
    (fields.filterMap (fun f => f.field_name)).Nodup →
    (∀ f ∈ fields, f.write_only = Option.none ∨ f.write_only = some (.bool false) ∨
      f.write_only = some (.bool true)) →
    (∀ f ∈ fields, write_only_true f.write_only = false → dispatch_value obj f ≠ Option.none) →
    ∃ st1, serialize_loop obj i fields st dict =
        .next (dict ++ expected_entries obj fields) st1 ∧ st1.err = Option.none := by
  induction fields with
  | nil =>
    intro i st dict hst _ _ _ _
    exact ⟨st, by simp [serialize_loop, expected_entries], hst⟩
  | cons f rest ih =>
    intro i st dict hst hfresh hnd hwo hdisp
    obtain ⟨n, hn, hnk⟩ := hfresh f (List.mem_cons_self _ _)
    have hnd' : n ∉ rest.filterMap (fun f => f.field_name) ∧
        (rest.filterMap (fun f => f.field_name)).Nodup := by
      simpa [List.filterMap_cons, hn] using hnd
    have hwo' := fun g hg => hwo g (List.mem_cons_of_mem _ hg)
    have hdisp' := fun g hg => hdisp g (List.mem_cons_of_mem _ hg)
    rw [serialize_loop_cons _ _ _ _ _ _ hst]
    have dispatched_case : (f.write_only = Option.none ∨ f.write_only = some (.bool false)) →
        write_only_true f.write_only = false →
        ∃ st1, (match serialize_field obj i f st dict with
          | .undefined tr => Step.undefined tr
          | .next dict1 st1 => serialize_loop obj (i + 1) rest st1 dict1) =
          .next (dict ++ expected_entries obj (f :: rest)) st1 ∧ st1.err = Option.none := by
      intro hw hnt
      have hd : dispatched f.write_only = true := (dispatched_iff _).2 hw
      obtain ⟨v, hv⟩ := Option.ne_none_iff_exists'.1 (hdisp f (List.mem_cons_self _ _) hnt)
      obtain ⟨s, hrun, hs⟩ := dispatch_value_run obj f n v i
        ⟨Option.none, st.trace ++ attr_reads i f⟩ hn hv rfl
      rw [serialize_field_value obj i f st dict n v s hst hw hn hrun, setItem_new _ _ _ hnk]
      simp only
      have hfresh' : ∀ g ∈ rest, ∃ m, g.field_name = some m ∧ m ∉ keys (dict ++ [(n, v)]) := by
        intro g hg
        obtain ⟨m, hm, hmk⟩ := hfresh g (List.mem_cons_of_mem _ hg)
        refine ⟨m, hm, ?_⟩
        intro hmem
        simp only [keys, List.map_append, List.map_cons, List.map_nil, List.mem_append,
          List.mem_singleton] at hmem hmk
        rcases hmem with h1 | h1
        · exact hmk h1
        · apply hnd'.1
          rw [← h1]
          exact List.mem_filterMap.2 ⟨g, hg, hm⟩
      obtain ⟨st1, h1, h2⟩ := ih (i + 1) s (dict ++ [(n, v)]) hs hfresh' hnd'.2 hwo' hdisp'
      refine ⟨st1, ?_, h2⟩
      rw [h1]
      simp [expected_entries, List.filterMap_cons, field_entry_of_dispatched obj f n v hd hn hv]
    rcases hwo f (List.mem_cons_self _ _) with hw | hw | hw
    · exact dispatched_case (Or.inl hw) (by rw [hw]; rfl)
    · exact dispatched_case (Or.inr hw) (by rw [hw]; rfl)
    · have hd : dispatched f.write_only = false := by rw [hw]; rfl
      have he : attr_err f = Option.none := by simp [attr_err, hn]
      rw [serialize_field_eq _ _ _ _ _ hst]
      simp only [hd, he, Bool.false_eq_true, if_false]
      have hfresh' : ∀ g ∈ rest, ∃ m, g.field_name = some m ∧ m ∉ keys dict :=
        fun g hg => hfresh g (List.mem_cons_of_mem _ hg)
      obtain ⟨st1, h1, h2⟩ := ih (i + 1) ⟨Option.none, st.trace ++ attr_reads i f⟩ dict rfl
        hfresh' hnd'.2 hwo' hdisp'
      refine ⟨st1, ?_, h2⟩
      rw [h1]
      simp [expected_entries, List.filterMap_cons, field_entry_of_skipped obj f hd]

/-- The expected entries are one per field whose `write_only` is not `True`, in input
order, each with the name of its field and the dispatcher's value for it. -/
theorem expected_entries_forall2 (obj : PyObj) (fields : List Field)
    (hnames : ∀ f ∈ fields, f.field_name ≠ Option.none)
    (hwo : ∀ f ∈ fields, f.write_only = Option.none ∨ f.write_only = some (.bool false) ∨
      f.write_only = some (.bool true))
    (hdisp : ∀ f ∈ fields, write_only_true f.write_only = false →
      dispatch_value obj f ≠ Option.none) :
    List.Forall₂ (fun f p => f.field_name = some p.1 ∧ dispatch_value obj f = some p.2)
      (fields.filter (fun f => !write_only_true f.write_only))
      (expected_entries obj fields) := by
  induction fields with
  | nil => simp [expected_entries]
  | cons f rest ih =>
    have ih' := ih (fun g hg => hnames g (List.mem_cons_of_mem _ hg))
      (fun g hg => hwo g (List.mem_cons_of_mem _ hg))
      (fun g hg => hdisp g (List.mem_cons_of_mem _ hg))
    obtain ⟨n, hn⟩ := Option.ne_none_iff_exists'.1 (hnames f (List.mem_cons_self _ _))
    have dispatched_case : (f.write_only = Option.none ∨ f.write_only = some (.bool false)) →
        write_only_true f.write_only = false →
        List.Forall₂ (fun f p => f.field_name = some p.1 ∧ dispatch_value obj f = some p.2)
          ((f :: rest).filter (fun f => !write_only_true f.write_only))
          (expected_entries obj (f :: rest)) := by
      intro hw hnt
      have hd : dispatched f.write_only = true := (dispatched_iff _).2 hw
      obtain ⟨v, hv⟩ := Option.ne_none_iff_exists'.1 (hdisp f (List.mem_cons_self _ _) hnt)
      simp only [expected_entries, List.filterMap_cons,
        field_entry_of_dispatched obj f n v hd hn hv, List.filter_cons, hnt, Bool.not_false,
        if_true]
      exact List.Forall₂.cons ⟨hn, hv⟩ ih'
    rcases hwo f (List.mem_cons_self _ _) with hw | hw | hw
    · exact dispatched_case (Or.inl hw) (by rw [hw]; rfl)
    · exact dispatched_case (Or.inr hw) (by rw [hw]; rfl)
    · have hd : dispatched f.write_only = false := by rw [hw]; rfl
      have ht : write_only_true f.write_only = true := by rw [hw]; rfl
      simp only [expected_entries, List.filterMap_cons, field_entry_of_skipped obj f hd,
        List.filter_cons, ht, Bool.not_true, Bool.false_eq_true, if_false]
      exact ih'

/-- C18: when all fields are named with pairwise distinct names, every `write_only` is
absent, `False` or `True`, and the dispatcher yields a value for every field whose
`write_only` is not `True`, `serialize` succeeds and the mapping has one entry per field
whose `write_only` is not `True`, in input order, under the name of the field and with the
dispatcher's value for it; so it has as many entries as there are such fields. -/
theorem distinct_names_one_entry_each (obj : PyObj) (fields : List Field)
    (hnames : ∀ f ∈ fields, f.field_name ≠ Option.none)
    (hdistinct : (fields.filterMap (fun f => f.field_name)).Nodup)
    (hwo : ∀ f ∈ fields, f.write_only = Option.none ∨ f.write_only = some (.bool false) ∨
      f.write_only = some (.bool true))
    (hdisp : ∀ f ∈ fields, write_only_true f.write_only = false →
      dispatch_value obj f ≠ Option.none) :
    ∃ m tr, serialize obj fields = (.ok m, tr) ∧
      List.Forall₂ (fun f p => f.field_name = some p.1 ∧ dispatch_value obj f = some p.2)
        (fields.filter (fun f => !write_only_true f.write_only)) m ∧
      m.length = (fields.filter (fun f => !write_only_true f.write_only)).length := by
  have hfresh : ∀ f ∈ fields, ∃ n, f.field_name = some n ∧ n ∉ keys ([] : Dict) := by
    intro f hf
    obtain ⟨n, hn⟩ := Option.ne_none_iff_exists'.1 (hnames f hf)
    exact ⟨n, hn, by simp [keys]⟩
  obtain ⟨st1, h1, h2⟩ := serialize_loop_distinct obj fields 0 ⟨Option.none, []⟩ [] rfl
    hfresh hdistinct hwo hdisp
  have hall := expected_entries_forall2 obj fields hnames hwo hdisp
  refine ⟨expected_entries obj fields, st1.trace, ?_, hall, hall.length_eq.symm⟩
  obtain ⟨e1, t1⟩ := st1
  simp only at h2
  subst h2
  simp [serialize, h1]

/-- C18 on the fields `title`, `secret` (write-only) and `created`: two entries, in input
order. -/
theorem distinct_names_one_entry_each_witness :
    ([title_field, secret_field, created_field].filterMap (fun f => f.field_name)).Nodup ∧
    (serialize sample_obj [title_field, secret_field, created_field]).1 =
      .ok [("title", .str "hello"), ("created", .str "2024-01-05T08:03:02.500000Z")] ∧
    ∃ m tr, serialize sample_obj [title_field, secret_field, created_field] = (.ok m, tr) ∧
      List.Forall₂
        (fun f p => f.field_name = some p.1 ∧ dispatch_value sample_obj f = some p.2)
        ([title_field, secret_field, created_field].filter
          (fun f => !write_only_true f.write_only)) m ∧
      m.length = ([title_field, secret_field, created_field].filter
        (fun f => !write_only_true f.write_only)).length :=
  ⟨by decide, rfl,
    distinct_names_one_entry_each sample_obj [title_field, secret_field, created_field]
      (by
        intro f hf
        simp only [List.mem_cons, List.mem_singleton, List.not_mem_nil, or_false] at hf
        rcases hf with rfl | rfl | rfl <;> simp [title_field, secret_field, created_field,
          plain_field])
      (by decide)
      (by
        intro f hf
        simp only [List.mem_cons, List.mem_singleton, List.not_mem_nil, or_false] at hf
        rcases hf with rfl | rfl | rfl <;> simp [title_field, secret_field, created_field,
          plain_field])
      (by
        intro f hf
        simp only [List.mem_cons, List.mem_singleton, List.not_mem_nil, or_false] at hf
        rcases hf with rfl | rfl | rfl
        · intro _ h
          have e : dispatch_value sample_obj title_field = some (.str "hello") := rfl
          rw [e] at h
          exact absurd h (by simp)
        · intro h
          exact absurd h (by decide)
        · intro _ h
          have e : dispatch_value sample_obj created_field =
            some (.str "2024-01-05T08:03:02.500000Z") := rfl
          rw [e] at h
          exact absurd h (by simp))⟩

theorem foldl_add_key_keeps_nodup (l : List String) :
    ∀ acc : List String, acc.Nodup → (l.foldl add_key acc).Nodup := by
  induction l with
  | nil => intro acc h; exact h
  | cons k rest ih =>
    intro acc h
    simp only [List.foldl_cons]
    apply ih
    unfold add_key
    split
    · exact h
    · rename_i hk
      exact List.nodup_append.2 ⟨h, List.nodup_singleton k, by
        intro a ha hb
        rw [List.mem_singleton.1 hb] at ha
        exact hk ha⟩

theorem foldl_add_key_length (l : List String) :
    ∀ acc : List String, (l.foldl add_key acc).length ≤ acc.length + l.length := by
  induction l with
  | nil => intro acc; simp
  | cons k rest ih =>
    intro acc
    simp only [List.foldl_cons, List.length_cons]
    have h := ih (add_key acc k)
    have h2 : (add_key acc k).length ≤ acc.length + 1 := by
      unfold add_key
      split <;> simp
    omega

theorem mem_keys_of_get (d : Dict) (k : String) (v : PyVal) (h : Dict.get d k = some v) :
    k ∈ keys d := by
  induction d with
  | nil => simp [Dict.get] at h
  | cons p rest ih =>
    obtain ⟨k', v'⟩ := p
    by_cases hk : k' = k
    · simp [keys, hk]
    · simp only [Dict.get, hk, if_false] at h
      simp only [keys, List.map_cons, List.mem_cons]
      exact Or.inr (ih h)

/-- In a successful call, the entry under the name of a field that is let through, and
that no later field let through shares its name with, is the dispatcher's value for that
field. -/
theorem last_value_kept (obj : PyObj) (pre : List Field) (f : Field) (post : List Field)
    (m : Dict) (tr : List Event) (n : String)
    (h : serialize obj (pre ++ f :: post) = (.ok m, tr))
    (hw : f.write_only = Option.none ∨ f.write_only = some (.bool false))
    (hn : f.field_name = some n)
    (hlast : ∀ g ∈ post, dispatched g.write_only = true → g.field_name ≠ some n) :
    ∃ v, dispatch_value obj f = some v ∧ Dict.get m n = some v := by
  have hd : dispatched f.write_only = true := (dispatched_iff _).2 hw
  have hl := (serialize_eq_ok obj _ m tr).1 h
  rw [serialize_loop_append] at hl
  rcases hp : serialize_loop obj 0 pre ⟨Option.none, []⟩ [] with ⟨d1, s1⟩ | t
  · rw [hp] at hl
    simp only at hl
    rcases hs1 : s1.err with _ | e1
    · rw [serialize_loop_cons _ _ _ _ _ _ hs1] at hl
      rcases hf : serialize_field obj (0 + pre.length) f s1 d1 with ⟨d2, s2⟩ | t2
      · rw [hf] at hl
        simp only at hl
        rcases hs2 : s2.err with _ | e2
        · rcases serialize_field_success obj _ f s1 d1 d2 s2 hs1 hf hs2 with
            ⟨hd', _⟩ | ⟨_, k, v, hk, hrun, hd2⟩
          · rw [hd] at hd'
            exact absurd hd' (by simp)
          · have hkn : k = n := by
              rw [hn] at hk
              exact (Option.some.inj hk).symm
            subst hkn
            refine ⟨v, dispatch_value_of_run obj f k v _ _ s2 hn rfl hrun hs2, ?_⟩
            rw [serialize_loop_get obj post k _ s2 d2 m _ hs2 hl rfl hlast, hd2]
            exact get_setItem_same _ _ _
        · rw [serialize_loop_err _ _ _ _ _ e2 hs2] at hl
          simp only [Step.next.injEq] at hl
          rw [hl.2] at hs2
          exact absurd hs2 (by simp)
      · rw [hf] at hl
        simp at hl
    · rw [serialize_loop_err _ _ _ _ _ e1 hs1] at hl
      simp only [Step.next.injEq] at hl
      rw [hl.2] at hs1
      exact absurd hs1 (by simp)
  · rw [hp] at hl
    simp at hl

/-- C19: in a successful call, for a field that is let through and is the last such field
of its name `n`, the mapping has a single entry under `n`, whose value is the dispatcher's
value for that field, whatever fields of the same name come before it; and the mapping has
at most as many entries as there are fields let through. -/
theorem last_field_wins (obj : PyObj) (pre : List Field) (f : Field) (post : List Field)
    (m : Dict) (tr : List Event) (n : String)
    (h : serialize obj (pre ++ f :: post) = (.ok m, tr))
    (hw : f.write_only = Option.none ∨ f.write_only = some (.bool false))
    (hn : f.field_name = some n)
    (hlast : ∀ g ∈ post, dispatched g.write_only = true → g.field_name ≠ some n) :
    (∃ v, dispatch_value obj f = some v ∧ Dict.get m n = some v) ∧
    (keys m).count n = 1 ∧
    m.length ≤ ((pre ++ f :: post).filter (fun g => dispatched g.write_only)).length := by
  obtain ⟨v, hv, hget⟩ := last_value_kept obj pre f post m tr n h hw hn hlast
  have hl := (serialize_eq_ok obj _ m tr).1 h
  obtain ⟨hk, _⟩ := serialize_loop_keys obj _ 0 ⟨Option.none, []⟩ [] m
    ⟨Option.none, tr⟩ rfl hl rfl
  have hnd : (keys m).Nodup := by
    rw [hk]
    exact foldl_add_key_keeps_nodup _ _ (by simp [keys])
  refine ⟨⟨v, hv, hget⟩, List.count_eq_one_of_mem hnd (mem_keys_of_get m n v hget), ?_⟩
  have hlen : m.length = (keys m).length := by simp [keys]
  have h1 := foldl_add_key_length (dispatched_names (pre ++ f :: post)) (keys ([] : Dict))
  have h2 : (dispatched_names (pre ++ f :: post)).length ≤
      ((pre ++ f :: post).filter (fun g => dispatched g.write_only)).length := by
    unfold dispatched_names
    exact List.length_filterMap_le _ _
  rw [hlen, hk]
  simp only [keys, List.map_nil, List.length_nil, Nat.zero_add] at h1
  simp only [keys, List.map_nil]
  omega

/-- C19 on two fields named `created`, the first wrapped as `"instant"` and the second
bare: one entry, with the value of the second, for two fields let through. -/
theorem last_field_wins_witness :
    serialize sample_obj ([created_instant] ++ created_field :: []) =
      (.ok [("created", .str "2024-01-05T08:03:02.500000Z")],
        [.fieldAttr 0 "field_name", .fieldAttr 0 "type_name", .fieldAttr 0 "write_only",
         .objAttr 0 "created", .format 0, .fieldAttr 0 "as_dict",
         .fieldAttr 1 "field_name", .fieldAttr 1 "type_name", .fieldAttr 1 "write_only",
         .objAttr 1 "created", .format 1, .fieldAttr 1 "as_dict"]) ∧
    dispatch_value sample_obj created_instant =
      some (.dict [("type", .str "instant"), ("value", .str "2024-01-05T08:03:02.500000Z")]) ∧
    ((∃ v, dispatch_value sample_obj created_field = some v ∧
        Dict.get [("created", .str "2024-01-05T08:03:02.500000Z")] "created" = some v) ∧
      (keys [("created", PyVal.str "2024-01-05T08:03:02.500000Z")]).count "created" = 1 ∧
      ([("created", PyVal.str "2024-01-05T08:03:02.500000Z")] : Dict).length ≤
        (([created_instant] ++ created_field :: []).filter
          (fun g => dispatched g.write_only)).length) ∧
    ([("created", PyVal.str "2024-01-05T08:03:02.500000Z")] : Dict).length <
      (([created_instant] ++ created_field :: []).filter
        (fun g => dispatched g.write_only)).length :=
  ⟨rfl, rfl,
    last_field_wins sample_obj [created_instant] created_field [] _ _ "created" rfl
      (Or.inl rfl) rfl (by simp),
    by decide⟩

end Serializer
